import Mathlib

/-!
Verification development for the od-db embedded document store.

The store persists each record as one JSON file inside a collection
directory (`ODModel` in the source) and ships a snapshot/retention
utility (`ODDb.backup`).  We shallowly embed the JavaScript runtime
values the code manipulates (`JVal`), the filter evaluator
(`matchesFilter`), the collection-scoped CRUD operations, and the
backup routine, and prove the specified properties about them.

JavaScript numbers are modelled as integers (every concrete value the
store's claims exercise is integral); the abstract relational
comparison, strict equality, truthiness and template-string conversion
are embedded faithfully for this value universe.
-/

namespace OdDb

/-- JSON-compatible JavaScript runtime values, plus the `undefined`
sentinel produced by absent property accesses. -/
inductive JVal where
  | vUndefined : JVal
  | vNull : JVal
  | vBool : Bool → JVal
  | vNum : Int → JVal
  | vStr : String → JVal
  | vArr : List JVal → JVal
  | vObj : List (String × JVal) → JVal
deriving Repr

/-- Object field lists: own enumerable string-keyed properties in
insertion order. -/
abbrev Fields := List (String × JVal)

/-- JavaScript truthiness: `undefined`, `null`, `false`, `0` and the
empty string are falsy. -/
def jsTruthy : JVal → Bool
  | .vUndefined => false
  | .vNull => false
  | .vBool b => b
  | .vNum n => n != 0
  | .vStr s => s ≠ ""
  | .vArr _ => true
  | .vObj _ => true

/-- Decimal digit character of a value below ten. -/
def digitCharOf : Nat → Char
  | 0 => '0'
  | 1 => '1'
  | 2 => '2'
  | 3 => '3'
  | 4 => '4'
  | 5 => '5'
  | 6 => '6'
  | 7 => '7'
  | 8 => '8'
  | 9 => '9'
  | _ => '*'

/-- Fuel-indexed decimal rendering of a natural number (most
significant digit first); the fuel bounds the number of digits. -/
def natDigitsAux : Nat → Nat → List Char
  | 0, _ => []
  | f + 1, n =>
    if n < 10 then [digitCharOf n]
    else natDigitsAux f (n / 10) ++ [digitCharOf (n % 10)]

/-- Decimal digit list of a natural number. -/
def natDigits (n : Nat) : List Char := natDigitsAux (n + 1) n

/-- Decimal rendering of a natural number, the number-to-string
conversion JavaScript applies to non-negative integers. -/
def natToDecimal (n : Nat) : String := String.mk (natDigits n)

/-- JavaScript decimal rendering of an integer. -/
def intToDecimal (i : Int) : String :=
  if i < 0 then String.mk ('-' :: natDigits (-i).toNat) else natToDecimal i.toNat

/-- Value of a decimal digit run (callers guarantee every character is
a digit). -/
def digitsToNatL (l : List Char) : Nat :=
  l.foldl (fun acc c => acc * 10 + (c.toNat - 48)) 0

/-- Whitespace for the purposes of `Number(string)` trimming. -/
def isJsWs (c : Char) : Bool :=
  c == ' ' || c == '\t' || c == '\n' || c == '\r'

/-- Trim leading and trailing whitespace. -/
def trimL (l : List Char) : List Char :=
  ((l.dropWhile isJsWs).reverse.dropWhile isJsWs).reverse

/-- JavaScript `Number(string)` restricted to the integral values this
model carries: optional sign followed by decimal digits; the empty or
all-whitespace string converts to `0`; anything else is NaN (`none`). -/
def parseNumStr (s : String) : Option Int :=
  let t := trimL s.toList
  if t.isEmpty then some 0
  else if t.head? = some '-' then
    let r := t.tail
    if r ≠ [] ∧ r.all Char.isDigit then some (-(digitsToNatL r : Int)) else none
  else if t.head? = some '+' then
    let r := t.tail
    if r ≠ [] ∧ r.all Char.isDigit then some ((digitsToNatL r : Int)) else none
  else if t.all Char.isDigit then some ((digitsToNatL t : Int))
  else none

/-- Canonical array-index strings: `"0"` or a digit run without a
leading zero, as used by property access `arr[i]`. -/
def parseIndex (p : String) : Option Nat :=
  match p.toList with
  | [] => none
  | c :: cs =>
    if c == '0' then (if cs = [] then some 0 else none)
    else if (c :: cs).all Char.isDigit then some (digitsToNatL (c :: cs))
    else none

mutual

/-- JavaScript `String(value)` (template-literal conversion) on the
modelled value universe. -/
def jsTemplateStr : JVal → String
  | .vUndefined => "undefined"
  | .vNull => "null"
  | .vBool b => if b then "true" else "false"
  | .vNum n => intToDecimal n
  | .vStr s => s
  | .vArr xs => String.intercalate "," (jsArrParts xs)
  | .vObj _ => "[object Object]"

/-- Elements of `Array.prototype.toString`: `null` and `undefined`
render as the empty string inside a join. -/
def jsArrParts : List JVal → List String
  | [] => []
  | .vNull :: rest => "" :: jsArrParts rest
  | .vUndefined :: rest => "" :: jsArrParts rest
  | v :: rest => jsTemplateStr v :: jsArrParts rest

end

/-- JavaScript `ToNumber` on primitives: `undefined` is NaN (`none`),
`null` is `0`, booleans are `0`/`1`, strings parse as decimal
integers. -/
def jsToNumber : JVal → Option Int
  | .vUndefined => none
  | .vNull => some 0
  | .vBool b => some (if b then 1 else 0)
  | .vNum n => some n
  | .vStr s => parseNumStr s
  | .vArr _ => none
  | .vObj _ => none

/-- JavaScript `ToPrimitive` with number hint, as used by the abstract
relational comparison: arrays and plain objects convert via their
default `toString`. -/
def toPrimitiveNum : JVal → JVal
  | .vArr xs => .vStr (jsTemplateStr (.vArr xs))
  | .vObj _ => .vStr "[object Object]"
  | v => v

/-- JavaScript abstract relational comparison: both operands primitive
strings compare lexicographically, otherwise both convert to numbers
and a NaN on either side yields no ordering (`none`). -/
def jsCmp (a b : JVal) : Option Ordering :=
  match toPrimitiveNum a, toPrimitiveNum b with
  | .vStr s, .vStr t => some (compare s t)
  | pa, pb =>
    match jsToNumber pa, jsToNumber pb with
    | some x, some y => some (compare x y)
    | _, _ => none

/-- JavaScript `a < b`. -/
def jsLtB (a b : JVal) : Bool := jsCmp a b == some Ordering.lt

/-- JavaScript `a <= b` (false whenever the comparison involves NaN). -/
def jsLeB (a b : JVal) : Bool :=
  jsCmp a b == some Ordering.lt || jsCmp a b == some Ordering.eq

/-- JavaScript `a > b`. -/
def jsGtB (a b : JVal) : Bool := jsCmp a b == some Ordering.gt

/-- JavaScript `a >= b`. -/
def jsGeB (a b : JVal) : Bool :=
  jsCmp a b == some Ordering.gt || jsCmp a b == some Ordering.eq

/-- JavaScript strict equality `===`.  Arrays and objects compare by
reference; in the evaluator the compared references (a freshly parsed
document value versus a caller-built filter operand) are always
distinct objects, so they are never strictly equal. -/
def jsEq : JVal → JVal → Bool
  | .vUndefined, .vUndefined => true
  | .vNull, .vNull => true
  | .vBool a, .vBool b => a == b
  | .vNum a, .vNum b => a == b
  | .vStr a, .vStr b => a == b
  | _, _ => false

/-- Property access `v[p]` for string keys on the modelled values:
object field lookup, array index or `length`, string index or
`length`; anything else yields `undefined`. -/
def getStep : JVal → String → JVal
  | .vObj fs, p =>
    match fs.find? (fun q => q.1 == p) with
    | some q => q.2
    | none => .vUndefined
  | .vArr xs, p =>
    if p == "length" then .vNum xs.length
    else
      match parseIndex p with
      | some i => match xs.get? i with
        | some x => x
        | none => .vUndefined
      | none => .vUndefined
  | .vStr s, p =>
    if p == "length" then .vNum s.length
    else
      match parseIndex p with
      | some i => match s.toList.get? i with
        | some ch => .vStr (String.mk [ch])
        | none => .vUndefined
      | none => .vUndefined
  | _, _ => .vUndefined

/-- Walk a split dotted path step by step. -/
def getPath (v : JVal) : List String → JVal
  | [] => v
  | p :: rest => getPath (getStep v p) rest

/-- Split a key on dots, modelled on the character list. -/
def jsSplitDot (key : String) : List String :=
  (key.toList.splitOn '.').map (fun cs => String.mk cs)

/-- Lodash `get(document, key)` with a string path: when the whole key
is itself a property of the document it is used directly, otherwise
the key is split on dots and the path is walked. -/
def jsGet (doc : JVal) (key : String) : JVal :=
  match doc with
  | .vObj fs =>
    if fs.any (fun q => q.1 == key) then getStep doc key
    else getPath doc (jsSplitDot key)
  | _ => getPath doc (jsSplitDot key)

/-- Lodash `isObject`: objects and arrays (functions do not occur in
this value universe). -/
def isObjectB : JVal → Bool
  | .vObj _ => true
  | .vArr _ => true
  | _ => false

/-- `Array.isArray`. -/
def isArrayB : JVal → Bool
  | .vArr _ => true
  | _ => false

/-- JavaScript `key in value` for the objects and arrays the evaluator
guards with `isObject` (own properties; the operator keys tested never
collide with prototype properties). -/
def jsHasKey : JVal → String → Bool
  | .vObj fs, k => fs.any (fun q => q.1 == k)
  | .vArr xs, k =>
    k == "length" ||
      (match parseIndex k with
       | some i => i < xs.length
       | none => false)
  | _, _ => false

/-- `Array.prototype.includes` (SameValueZero membership; the source
applies it to the `$in`/`$nin` operand, which is an array in every
evaluation the theorems below exercise). -/
def jsIncludes (arr : JVal) (x : JVal) : Bool :=
  match arr with
  | .vArr xs => xs.any (fun e => jsEq e x)
  | _ => false

/-- One `key/filterValue` entry of `ODModel.matchesFilter`: operator
objects evaluate each present operator against the document value at
the dotted path, arrays test membership, anything else tests strict
equality.  Returns `false` exactly when the source's loop body hits a
`return false`. -/
def matchClause (document : JVal) (key : String) (filterValue : JVal) : Bool :=
  let documentValue := jsGet document key
  if isObjectB filterValue then
    if jsHasKey filterValue "$eq" && !(jsEq documentValue (getStep filterValue "$eq")) then false
    else if jsHasKey filterValue "$ne" && jsEq documentValue (getStep filterValue "$ne") then false
    else if jsHasKey filterValue "$gt" && jsLeB documentValue (getStep filterValue "$gt") then false
    else if jsHasKey filterValue "$gte" && jsLtB documentValue (getStep filterValue "$gte") then false
    else if jsHasKey filterValue "$lt" && jsGeB documentValue (getStep filterValue "$lt") then false
    else if jsHasKey filterValue "$lte" && jsGtB documentValue (getStep filterValue "$lte") then false
    else if jsHasKey filterValue "$in" && !(jsIncludes (getStep filterValue "$in") documentValue) then false
    else if jsHasKey filterValue "$nin" && jsIncludes (getStep filterValue "$nin") documentValue then false
    else if jsHasKey filterValue "$exists" &&
        ((jsTruthy (getStep filterValue "$exists") && jsEq documentValue JVal.vUndefined) ||
         (!(jsTruthy (getStep filterValue "$exists")) && !(jsEq documentValue JVal.vUndefined))) then false
    else true
  else if isArrayB filterValue then
    if !(jsIncludes filterValue documentValue) then false else true
  else
    if !(jsEq filterValue documentValue) then false else true

/-- `ODModel.matchesFilter(document, filter)`: every filter entry must
pass (the source's `for..in` loop with fail-fast `return false`). -/
def matchesFilter (document : JVal) (filter : Fields) : Bool :=
  filter.all (fun kv => matchClause document kv.1 kv.2)

/-!
Collection state.  A collection directory is a list of directory
entries: a file name together with its parsed content, `none` standing
for a file whose read or JSON parse fails.  JSON text encode/decode is
the spec's opaque serialize/deserialize capability, so file contents
are stored as already-parsed values.
-/

/-- One collection directory: `(fileName, content)` entries in listing
order; `none` content means reading or parsing that file fails. -/
abbrev Collection := List (String × Option JVal)

/-- Character-list test of `pat` occurring at the start of `l`. -/
def startsWithL : List Char → List Char → Bool
  | [], _ => true
  | _ :: _, [] => false
  | p :: ps, c :: cs => p == c && startsWithL ps cs

/-- Character-list substring test. -/
def containsSubL (pat : List Char) : List Char → Bool
  | [] => startsWithL pat []
  | c :: cs => startsWithL pat (c :: cs) || containsSubL pat cs

/-- Node's `file.includes(".DS_Store")` artifact-skipping test. -/
def skipFile (name : String) : Bool :=
  containsSubL ".DS_Store".toList name.toList

/-- Read a file: `some content` when the directory has the entry,
`none` when the path does not exist. -/
def lookupFile (c : Collection) (name : String) : Option (Option JVal) :=
  (c.find? (fun e => e.1 == name)).map (fun e => e.2)

/-- Own enumerable fields contributed by spreading a value into an
object literal: objects spread their fields, arrays and strings their
indexed elements, primitives nothing. -/
def docFields : JVal → Fields
  | .vObj fs => fs
  | .vArr xs => (List.range xs.length).zip xs |>.map (fun p => (toString p.1, p.2))
  | .vStr s => (List.range s.length).zip s.toList |>.map (fun p => (toString p.1, .vStr (String.mk [p.2])))
  | _ => []

/-- Assign one key in a field list the way an object-literal spread
does: overwrite in place when present, append when new. -/
def setField (fs : Fields) (k : String) (v : JVal) : Fields :=
  if fs.any (fun p => p.1 == k) then
    fs.map (fun p => if p.1 == k then (k, v) else p)
  else fs ++ [(k, v)]

/-- Spread-merge `upd` over `base` (`\x7b...base, ...upd\x7d`). -/
def mergeObj (base upd : Fields) : Fields :=
  upd.foldl (fun acc p => setField acc p.1 p.2) base

/-- Field-survival test of serialization: `JSON.stringify` keeps a
field unless its value is `undefined`. -/
def keepField (p : String × JVal) : Bool :=
  match p.2 with
  | .vUndefined => false
  | _ => true

/-- JSON.stringify drops object fields whose value is `undefined`. -/
def stripUndefined : JVal → JVal
  | .vObj fs => .vObj (fs.filter keepField)
  | v => v

/-- Persist a value at a file name (`fs.promises.writeFile` of the
JSON text): overwrite the existing directory entry (file names are
unique in a directory) or append a new one. -/
def writeJson : Collection → String → JVal → Collection
  | [], name, v => [(name, some (stripUndefined v))]
  | e :: rest, name, v =>
    if e.1 == name then (name, some (stripUndefined v)) :: rest
    else e :: writeJson rest name v

/-- `fs.promises.unlink`: drop the directory entry. -/
def removeFile (c : Collection) (name : String) : Collection :=
  c.filter (fun e => e.1 != name)

/-!
CRUD operations of `ODModel`, translated from the source.  Operations
that mutate the collection return the collection reached when the
operation finishes or its exception propagates, paired with the
`Except` outcome.  The `id` generator and the clock are opaque
capabilities, passed in as explicit arguments.
-/

/-- `ODModel.findOne(id)` of the two `ODModel` variants: an empty
(falsy) id returns `null`; a missing file or failed parse is caught,
logged and returns `null`; otherwise the parsed document.  It never
raises. -/
def findOne (c : Collection) (id : String) : Except String (Option JVal) :=
  if id = "" then .ok none
  else
    match lookupFile c (id ++ ".json") with
    | some (some d) => .ok (some d)
    | _ => .ok none

/-- `ODModel.findOne(id)` of the early prototype (src/model.ts): the
catch block wraps the failure and re-raises it, so a missing file or
failed parse propagates as an error instead of becoming `null`. -/
def findOneEarly (c : Collection) (id : String) : Except String JVal :=
  match lookupFile c (id ++ ".json") with
  | some (some d) => .ok d
  | _ => .error "Error finding document"

/-- Loop body of `ODModel.findMany`: iterate the listing, skip OS
artifacts, read and parse each file (a failure aborts the whole scan
with an error), and collect the documents the optional query
matches. -/
def findManyAux (c : Collection) (query : Option Fields) :
    List String → List JVal → Except String (List JVal)
  | [], acc => .ok acc
  | n :: rest, acc =>
    if skipFile n then findManyAux c query rest acc
    else
      match lookupFile c n with
      | some (some d) =>
        match query with
        | none => findManyAux c query rest (acc ++ [d])
        | some filt =>
          if matchesFilter d filt then findManyAux c query rest (acc ++ [d])
          else findManyAux c query rest acc
      | _ => .error "Error finding documents"

/-- `ODModel.findMany(query?)`. -/
def findMany (c : Collection) (query : Option Fields) : Except String (List JVal) :=
  findManyAux c query (c.map (fun e => e.1)) []

/-- `ODModel.insertOne(document, fileName?)`: keep a truthy existing
`id`, else use the freshly generated one; the target file name is the
explicit argument when truthy, else the id; spread the document and
stamp `id`, `createdAt`, `updatedAt`; write; return the stored
document. -/
def insertOne (c : Collection) (document : JVal) (genId : String)
    (createdNow updatedNow : String) (fileName : Option String) :
    Collection × Except String JVal :=
  let idv := if jsTruthy (getStep document "id") then getStep document "id" else .vStr genId
  let finalFileName :=
    match fileName with
    | some f => if f = "" then jsTemplateStr idv else f
    | none => jsTemplateStr idv
  let insertedDocument := JVal.vObj (mergeObj (docFields document)
    [("id", idv), ("createdAt", .vStr createdNow), ("updatedAt", .vStr updatedNow)])
  (writeJson c (finalFileName ++ ".json") insertedDocument, .ok insertedDocument)

/-- Legacy `ODModel.findByIdAndUpdate(id, update)` (first source
variant): when the document exists, the written record is the spread
of the update with `id` forced from the existing record and a fresh
`updatedAt`; fields of the existing record absent from the update are
dropped. -/
def findByIdAndUpdateLegacy (c : Collection) (id : String) (update : Fields)
    (now : String) : Collection × Except String (Option JVal) :=
  match findOne c id with
  | .ok (some existingData) =>
    let updatedData := JVal.vObj (mergeObj update
      [("id", getStep existingData "id"), ("updatedAt", .vStr now)])
    (writeJson c (id ++ ".json") updatedData, .ok (some updatedData))
  | _ => (c, .ok none)

/-- Mature `ODModel.findByIdAndUpdate(id, update)` (second source
variant): shallow-merge the update over the existing record's fields
(later spread wins on key conflicts), refresh `updatedAt`, write and
return the merged record; `null` without a write when the document is
absent. -/
def findByIdAndUpdate (c : Collection) (id : String) (update : Fields)
    (now : String) : Collection × Except String (Option JVal) :=
  match findOne c id with
  | .ok (some existingData) =>
    let updatedData := JVal.vObj (mergeObj (mergeObj (docFields existingData) update)
      [("updatedAt", .vStr now)])
    (writeJson c (id ++ ".json") updatedData, .ok (some updatedData))
  | _ => (c, .ok none)

/-- The record `findManyAndUpdate` writes for a matching document:
the spread merge of the update over the document. -/
def mergedDoc (document : JVal) (update : Fields) : JVal :=
  JVal.vObj (mergeObj (docFields document) update)

/-- Loop body of `ODModel.findManyAndUpdate`: for every non-artifact
file in the listing, read and parse (a failure aborts with an error,
leaving the updates already written in place), persist the spread
merge of the update when the filter matches, and push the pre-update
document to the returned list whether it matched or not. -/
def findManyAndUpdateAux (query update : Fields) :
    Collection → List String → List JVal → Collection × Except String (List JVal)
  | c, [], acc => (c, .ok acc)
  | c, n :: rest, acc =>
    if skipFile n then findManyAndUpdateAux query update c rest acc
    else
      match lookupFile c n with
      | some (some document) =>
        let c' := if matchesFilter document query then
            writeJson c n (mergedDoc document update)
          else c
        findManyAndUpdateAux query update c' rest (acc ++ [document])
      | _ => (c, .error "Error finding and updating documents")

/-- `ODModel.findManyAndUpdate(query, update)`. -/
def findManyAndUpdate (c : Collection) (query update : Fields) :
    Collection × Except String (List JVal) :=
  findManyAndUpdateAux query update c (c.map (fun e => e.1)) []

/-- Loop body of `ODModel.findManyAndDelete`: unlink every
non-artifact file whose parsed document matches the query; a read or
parse failure aborts with an error, earlier deletions standing. -/
def findManyAndDeleteAux (query : Fields) :
    Collection → List String → Collection × Except String Bool
  | c, [] => (c, .ok true)
  | c, n :: rest =>
    if skipFile n then findManyAndDeleteAux query c rest
    else
      match lookupFile c n with
      | some (some document) =>
        let c' := if matchesFilter document query then removeFile c n else c
        findManyAndDeleteAux query c' rest
      | _ => (c, .error "Error finding and deleting documents")

/-- `ODModel.findManyAndDelete(query)`. -/
def findManyAndDelete (c : Collection) (query : Fields) :
    Collection × Except String Bool :=
  findManyAndDeleteAux query c (c.map (fun e => e.1))

/-- Deletion loop of `ODModel.dropCollection` once the production
guard has passed: unlink every non-artifact file. -/
def dropCollectionAux : Collection → List String → Collection
  | c, [] => c
  | c, n :: rest =>
    if skipFile n then dropCollectionAux c rest
    else dropCollectionAux (removeFile c n) rest

/-- `ODModel.dropCollection()`: in production mode it throws before
touching any file; otherwise it unlinks every non-artifact file. -/
def dropCollection (isProduction : Bool) (c : Collection) :
    Collection × Except String Bool :=
  if isProduction then
    (c, .error "Cannot drop collection in production environment")
  else
    (dropCollectionAux c (c.map (fun e => e.1)), .ok true)

/-!
The backup manager (`ODDb.backup`).  Local time is modelled without
daylight-saving discontinuities: an instant is an integer count of
milliseconds, a civil date maps to the instant of its local midnight,
and "today" is given by its civil components `y`/`m`/`d` (what
`getFullYear`/`getMonth() + 1`/`getDate` return) together with the
milliseconds `tod` elapsed since local midnight, `0 ≤ tod <
msPerDay`.
-/

/-- Milliseconds per day. -/
def msPerDay : Int := 86400000

/-- Day number of the civil date `y-m-d` (days since 1970-01-01,
proleptic Gregorian), for `1 ≤ m ≤ 12`. -/
def daysFromCivilRaw (y m d : Int) : Int :=
  let y' := if m ≤ 2 then y - 1 else y
  let era := (if 0 ≤ y' then y' else y' - 399) / 400
  let yoe := y' - era * 400
  let mp := (m + 9).emod 12
  let doy := (153 * mp + 2) / 5 + d - 1
  let doe := yoe * 365 + yoe / 4 - yoe / 100 + doy
  era * 146097 + doe - 719468

/-- Day number of `new Date(y, m - 1, d)`: JavaScript first
normalizes the month by rolling surplus months into the year, then
adds the (possibly out-of-range) day offset. -/
def mkDayNumber (y m d : Int) : Int :=
  let total := y * 12 + (m - 1)
  let m0 := total.emod 12
  let y' := (total - m0) / 12
  daysFromCivilRaw y' (m0 + 1) 1 + (d - 1)

/-- Instant (local midnight) of `new Date(y, m - 1, d)`. -/
def mkDateMs (y m d : Int) : Int := mkDayNumber y m d * msPerDay

/-- JavaScript `name.split("-")` for the single-character dash
separator, modelled on the character list. -/
def jsSplitDash (name : String) : List String :=
  (name.toList.splitOn '-').map (fun cs => String.mk cs)

/-- `Number(nameArray[i])`: a missing component is `undefined`, whose
numeric conversion is NaN (`none`). -/
def parsePart (parts : List String) (i : Nat) : Option Int :=
  match parts.get? i with
  | some s => parseNumStr s
  | none => none

/-- Instant encoded by a snapshot directory name
`year-month-day-sequence`: split on dashes, convert the first three
components with `Number`, build the date; any NaN component makes the
date invalid (`none`). -/
def parseSnapDateMs (name : String) : Option Int :=
  let parts := jsSplitDash name
  match parsePart parts 0, parsePart parts 1, parsePart parts 2 with
  | some y, some m, some d => some (mkDateMs y m d)
  | _, _, _ => none

/-- Test of the `todayBackups` filter: the name's first three numeric
components strictly equal today's raw calendar components (a NaN
component fails every strict equality). -/
def sameDateB (name : String) (y m d : Int) : Bool :=
  let parts := jsSplitDash name
  match parsePart parts 0, parsePart parts 1, parsePart parts 2 with
  | some y' , some m' , some d' => y' == y && m' == m && d' == d
  | _, _, _ => false

/-- Retention window of the backup sweep, in days. -/
def backupDaysLimit : Int := 30

/-- Test of the `oldBackups` filter:
`isAfter(subDays(today, 30), dirDate)`, i.e. the snapshot's encoded
instant lies strictly before today's instant minus 30 days; an
invalid encoded date is never old. -/
def isOldBackup (todayMs : Int) (name : String) : Bool :=
  match parseSnapDateMs name with
  | some ms => decide (ms < todayMs - backupDaysLimit * msPerDay)
  | none => false

/-- Snapshot directory name `year-month-day-sequence` (components in
JavaScript decimal rendering, month and day not zero-padded). -/
def snapName (y m d : Int) (seq : Nat) : String :=
  intToDecimal y ++ "-" ++ intToDecimal m ++ "-" ++ intToDecimal d ++ "-" ++
    natToDecimal seq

/-- Number of listed snapshots whose encoded date equals today's raw
calendar components. -/
def todayCount (backupDir : List String) (y m d : Int) : Nat :=
  (backupDir.filter (fun s => sameDateB s y m d)).length

/-- `ODDb.backup()` acting on the backup-root listing: recursively
delete every old snapshot, count the pre-existing snapshots dated
today, then copy the store into a fresh directory named
`year-month-day-(count + 1)`.  Returns the resulting listing and the
new snapshot's name. -/
def backup (backupDir : List String) (y m d tod : Int) : List String × String :=
  let todayMs := mkDateMs y m d + tod
  let kept := backupDir.filter (fun s => !(isOldBackup todayMs s))
  let newDirName := snapName y m d (todayCount backupDir y m d + 1)
  (if kept.contains newDirName then kept else kept ++ [newDirName], newDirName)

/-!
Statement-side characterizations used by the theorems below.
-/

/-- Parsed contents of the non-artifact files of a listing, in
listing order: the pre-update snapshot of every scanned document. -/
def scannedDocs (c : Collection) : List JVal :=
  c.filterMap (fun e => if skipFile e.1 then none else e.2)

/-- Documents delivered by scanning the given file names against a
collection, skipping artifacts and unreadable files. -/
def docsFor (c : Collection) : List String → List JVal
  | [] => []
  | n :: rest =>
    if skipFile n then docsFor c rest
    else
      match lookupFile c n with
      | some (some d) => d :: docsFor c rest
      | _ => docsFor c rest

/-- Collection obtained by updating, among the files with the given
names, every non-artifact file whose document matches the query. -/
def updEntries (query update : Fields) (names : List String) (c : Collection) : Collection :=
  c.map (fun e =>
    if names.contains e.1 && !skipFile e.1 then
      match e.2 with
      | some d =>
        if matchesFilter d query then (e.1, some (stripUndefined (mergedDoc d update))) else e
      | none => e
    else e)

/-- Collection obtained by the full update sweep: every non-artifact
file whose document matches the query carries the persisted merge,
every other file is untouched. -/
def updateMatching (query update : Fields) (c : Collection) : Collection :=
  c.map (fun e =>
    if skipFile e.1 then e
    else
      match e.2 with
      | some d =>
        if matchesFilter d query then (e.1, some (stripUndefined (mergedDoc d update))) else e
      | none => e)

/-- Collection left after deleting, among the files with the given
names, every non-artifact file. -/
def delEntries (names : List String) (c : Collection) : Collection :=
  c.filter (fun e => !(names.contains e.1 && !skipFile e.1))

/-- The artifact files of a collection (the ones every sweep skips). -/
def artifactsOnly (c : Collection) : Collection :=
  c.filter (fun e => skipFile e.1)

/-!
Helper lemmas about the directory and field primitives.
-/

theorem lookupFile_nil (n : String) : lookupFile [] n = none := rfl

theorem lookupFile_cons (e : String × Option JVal) (c : Collection) (n : String) :
    lookupFile (e :: c) n = if e.1 = n then some e.2 else lookupFile c n := by
  by_cases h : e.1 = n
  · simp [lookupFile, List.find?, h]
  · have hb : (e.1 == n) = false := beq_eq_false_iff_ne.mpr h
    simp [lookupFile, List.find?, hb, h]

theorem writeJson_cons (e : String × Option JVal) (c : Collection) (n : String) (v : JVal) :
    writeJson (e :: c) n v =
      if e.1 = n then (n, some (stripUndefined v)) :: c else e :: writeJson c n v := by
  by_cases h : e.1 = n
  · simp [writeJson, h]
  · have hb : (e.1 == n) = false := beq_eq_false_iff_ne.mpr h
    simp [writeJson, hb, h]

theorem lookupFile_writeJson_self (c : Collection) (n : String) (v : JVal) :
    lookupFile (writeJson c n v) n = some (some (stripUndefined v)) := by
  induction c with
  | nil => simp [writeJson, lookupFile_cons]
  | cons e rest ih =>
    rw [writeJson_cons]
    by_cases h : e.1 = n
    · simp [h, lookupFile_cons]
    · simp [h, lookupFile_cons, ih]

theorem lookupFile_writeJson_ne (c : Collection) (n m : String) (v : JVal)
    (h : m ≠ n) : lookupFile (writeJson c n v) m = lookupFile c m := by
  have hnm : ¬ (n = m) := fun hc => h hc.symm
  induction c with
  | nil =>
    simp [writeJson, lookupFile_cons, hnm]
  | cons e rest ih =>
    rw [writeJson_cons]
    by_cases he : e.1 = n
    · simp [he, lookupFile_cons, hnm, h]
    · by_cases hm : e.1 = m
      · simp [he, lookupFile_cons, hm, hnm, h]
      · simp [he, lookupFile_cons, hm, hnm, h, ih]

theorem writeJson_names (c : Collection) (n : String) (v : JVal) :
    n ∈ c.map (fun e => e.1) →
    (writeJson c n v).map (fun e => e.1) = c.map (fun e => e.1) := by
  induction c with
  | nil => intro h; simp at h
  | cons e rest ih =>
    intro h
    rw [writeJson_cons]
    by_cases he : e.1 = n
    · simp [he]
    · have hn : n ∈ rest.map (fun e => e.1) := by
        rw [List.map_cons] at h
        rcases List.mem_cons.mp h with h1 | h1
        · exact absurd h1.symm he
        · exact h1
      simp [he, ih hn]

theorem removeFile_cons (e : String × Option JVal) (c : Collection) (n : String) :
    removeFile (e :: c) n = if e.1 = n then removeFile c n else e :: removeFile c n := by
  by_cases h : e.1 = n
  · have hb : (e.1 != n) = false := by simp [h]
    simp [removeFile, List.filter, hb, h]
  · have hb : (e.1 != n) = true := by simp [h]
    simp [removeFile, List.filter, hb, h]

theorem lookupFile_removeFile_ne (c : Collection) (n m : String)
    (h : m ≠ n) : lookupFile (removeFile c n) m = lookupFile c m := by
  have hnm : ¬ (n = m) := fun hc => h hc.symm
  induction c with
  | nil => rfl
  | cons e rest ih =>
    rw [removeFile_cons]
    by_cases he : e.1 = n
    · have hem : ¬ (e.1 = m) := by
        rw [he]; exact hnm
      rw [if_pos he, ih, lookupFile_cons, if_neg hem]
    · by_cases hm : e.1 = m
      · simp [lookupFile_cons, he, hm, hnm, h]
      · simp [lookupFile_cons, he, hm, hnm, h, ih]

theorem lookupFile_of_mem (c : Collection) :
    (c.map (fun x => x.1)).Nodup → ∀ e ∈ c, lookupFile c e.1 = some e.2 := by
  induction c with
  | nil => intro _ e he; simp at he
  | cons a rest ih =>
    intro hnd e he
    rw [List.map_cons, List.nodup_cons] at hnd
    rcases List.mem_cons.mp he with h1 | h1
    · subst h1
      simp [lookupFile_cons]
    · have hae : ¬ (a.1 = e.1) := fun hc =>
        hnd.1 (hc ▸ List.mem_map_of_mem (fun x => x.1) h1)
      rw [lookupFile_cons, if_neg hae]
      exact ih hnd.2 e h1

theorem find?_map_setField (fs : Fields) (k : String) (v : JVal) :
    ((fs.map (fun p => if p.1 == k then (k, v) else p)).find? (fun q => q.1 == k)) =
      (if fs.any (fun p => p.1 == k) then some (k, v) else none) := by
  induction fs with
  | nil => simp
  | cons p rest ih =>
    by_cases hp : p.1 = k
    · have hb : (p.1 == k) = true := beq_iff_eq.mpr hp
      simp only [List.map_cons, hb, if_true, List.any_cons, Bool.true_or,
        List.find?_cons, beq_self_eq_true]
    · have hb : (p.1 == k) = false := beq_eq_false_iff_ne.mpr hp
      simp only [List.map_cons, hb, Bool.false_eq_true, if_false, List.any_cons,
        Bool.false_or, List.find?_cons]
      rw [ih]

theorem find?_of_any_eq_false (fs : Fields) (k : String)
    (h : fs.any (fun p => p.1 == k) = false) :
    fs.find? (fun q => q.1 == k) = none := by
  induction fs with
  | nil => rfl
  | cons p rest ih =>
    simp only [List.any_cons, Bool.or_eq_false_iff] at h
    simp only [List.find?_cons, h.1]
    exact ih h.2

theorem find?_setField_self (fs : Fields) (k : String) (v : JVal) :
    (setField fs k v).find? (fun q => q.1 == k) = some (k, v) := by
  unfold setField
  by_cases h : fs.any (fun p => p.1 == k)
  · rw [if_pos h, find?_map_setField, if_pos h]
  · rw [if_neg h, List.find?_append, find?_of_any_eq_false fs k (Bool.eq_false_iff.mpr h)]
    simp [List.find?]

theorem find?_map_setField_ne (fs : Fields) (k k' : String) (v : JVal) (h : k' ≠ k) :
    ((fs.map (fun p => if p.1 == k then (k, v) else p)).find? (fun q => q.1 == k')) =
      fs.find? (fun q => q.1 == k') := by
  induction fs with
  | nil => rfl
  | cons p rest ih =>
    by_cases hp : p.1 = k
    · have hb : (p.1 == k) = true := beq_iff_eq.mpr hp
      have hk' : (k == k') = false := beq_eq_false_iff_ne.mpr (fun hc => h hc.symm)
      have hp' : (p.1 == k') = false := by
        rw [hp]; exact hk'
      simp only [List.map_cons, hb, if_true, List.find?_cons, hk', hp']
      exact ih
    · have hb : (p.1 == k) = false := beq_eq_false_iff_ne.mpr hp
      simp only [List.map_cons, hb, Bool.false_eq_true, if_false, List.find?_cons]
      by_cases hq : p.1 = k'
      · have hq' : (p.1 == k') = true := beq_iff_eq.mpr hq
        simp only [hq']
      · have hq' : (p.1 == k') = false := beq_eq_false_iff_ne.mpr hq
        simp only [hq']
        exact ih

theorem find?_setField_ne (fs : Fields) (k k' : String) (v : JVal) (h : k' ≠ k) :
    (setField fs k v).find? (fun q => q.1 == k') = fs.find? (fun q => q.1 == k') := by
  unfold setField
  by_cases ha : fs.any (fun p => p.1 == k)
  · rw [if_pos ha, find?_map_setField_ne fs k k' v h]
  · rw [if_neg ha, List.find?_append]
    have hk' : (k == k') = false := beq_eq_false_iff_ne.mpr (fun hc => h hc.symm)
    cases hf : fs.find? (fun q => q.1 == k') with
    | some q => simp [hf]
    | none => simp [hf, List.find?, hk']

theorem mergeObj_cons (b : Fields) (p : String × JVal) (rest : Fields) :
    mergeObj b (p :: rest) = mergeObj (setField b p.1 p.2) rest := rfl

theorem mergeObj_nil (b : Fields) : mergeObj b [] = b := rfl

theorem find?_mergeObj_notin (b : Fields) (upd : Fields) (k : String)
    (h : ∀ p ∈ upd, p.1 ≠ k) :
    (mergeObj b upd).find? (fun q => q.1 == k) = b.find? (fun q => q.1 == k) := by
  induction upd generalizing b with
  | nil => rfl
  | cons p rest ih =>
    rw [mergeObj_cons, ih _ (fun q hq => h q (List.mem_cons_of_mem p hq))]
    exact find?_setField_ne b p.1 k p.2 (fun hc => h p (List.mem_cons_self p rest) hc.symm)

theorem mergeObj_append (b : Fields) (u1 u2 : Fields) :
    mergeObj b (u1 ++ u2) = mergeObj (mergeObj b u1) u2 := by
  unfold mergeObj
  exact List.foldl_append _ _ u1 u2

theorem getStep_obj (fs : Fields) (k : String) :
    getStep (JVal.vObj fs) k =
      (match fs.find? (fun q => q.1 == k) with
       | some q => q.2
       | none => JVal.vUndefined) := rfl

theorem getStep_obj_of_find (fs : Fields) (k : String) (q : String × JVal)
    (h : fs.find? (fun x => x.1 == k) = some q) :
    getStep (JVal.vObj fs) k = q.2 := by
  rw [getStep_obj, h]

theorem find?_filter_of_pred {α : Type} (p P : α → Bool) (l : List α) (q : α)
    (h : l.find? p = some q) (hq : P q = true) :
    (l.filter P).find? p = some q := by
  induction l with
  | nil => simp at h
  | cons a rest ih =>
    by_cases hp : p a
    · rw [List.find?_cons_of_pos rest hp] at h
      have hqa : a = q := by injection h
      subst hqa
      rw [List.filter_cons_of_pos hq]
      exact List.find?_cons_of_pos _ hp
    · simp only [Bool.not_eq_true] at hp
      rw [List.find?_cons_of_neg rest (by simp [hp])] at h
      by_cases hPa : P a
      · rw [List.filter_cons_of_pos hPa, List.find?_cons_of_neg _ (by simp [hp])]
        exact ih h
      · rw [List.filter_cons_of_neg (by simpa using hPa)]
        exact ih h

theorem jsTruthy_ne_undefined (v : JVal) (h : jsTruthy v = true) : v ≠ JVal.vUndefined := by
  intro hc
  subst hc
  simp [jsTruthy] at h

theorem jsCmp_undefined_left (b : JVal) : jsCmp JVal.vUndefined b = none := by
  cases b <;> rfl

/-!
The claims.
-/

/-- C7: with the production-mode flag set, `dropCollection` raises the
policy-violation error and leaves the collection untouched; the guard
runs before any deletion, so this holds for every collection state. -/
theorem c7_dropCollection_production_guard (c : Collection) :
    dropCollection true c =
      (c, Except.error "Cannot drop collection in production environment") := rfl

/-- C1 counterexample: on a document without an `age` field, the
filter `\x7bage: \x7b$gt: 5\x7d\x7d` matches.  The claim asserts that an
ordering operator applied to the undefined sentinel makes the filter
not match; the evaluator instead tests the complementary comparison,
which is also false on undefined, so the guard never fires and the
filter matches. -/
theorem c1_counterexample :
    matchesFilter (JVal.vObj []) [("age", JVal.vObj [("$gt", JVal.vNum 5)])] = true := rfl

/-- C1 (amended): when the document's value at the path is the
undefined sentinel, each of `$gt`, `$gte`, `$lt`, `$lte` imposes no
constraint: the disqualifying comparison is itself false, so a filter
consisting of that single ordering operator matches the document. -/
theorem c1_ordering_on_undefined (doc : JVal) (key op : String) (v : JVal)
    (hop : op = "$gt" ∨ op = "$gte" ∨ op = "$lt" ∨ op = "$lte")
    (hundef : jsGet doc key = JVal.vUndefined) :
    matchesFilter doc [(key, JVal.vObj [(op, v)])] = true := by
  have hcmp : jsCmp (jsGet doc key) v = none := by
    rw [hundef]; exact jsCmp_undefined_left v
  rcases hop with h | h | h | h <;> subst h <;>
    simp [matchesFilter, matchClause, isObjectB, jsHasKey, getStep, List.find?,
      jsLeB, jsLtB, jsGeB, jsGtB, hcmp, hundef, jsEq, jsCmp_undefined_left]

/-- C1 witness: instance of the amended theorem at a concrete
document, path and operand. -/
theorem c1_witness :
    matchesFilter (JVal.vObj [("name", JVal.vStr "A")])
      [("age", JVal.vObj [("$lt", JVal.vNum 7)])] = true :=
  c1_ordering_on_undefined (JVal.vObj [("name", JVal.vStr "A")]) "age" "$lt"
    (JVal.vNum 7) (Or.inr (Or.inr (Or.inl rfl))) rfl

theorem keepField_of_ne_undefined (k : String) (v : JVal) (h : v ≠ JVal.vUndefined) :
    keepField (k, v) = true := by
  cases v <;> simp [keepField] at h ⊢

theorem all_keep_setField (fs : Fields) (k : String) (v : JVal)
    (hf : fs.all keepField = true) (hv : v ≠ JVal.vUndefined) :
    (setField fs k v).all keepField = true := by
  rw [List.all_eq_true] at hf ⊢
  intro p hp
  unfold setField at hp
  by_cases ha : fs.any (fun p => p.1 == k)
  · rw [if_pos ha] at hp
    rcases List.mem_map.mp hp with ⟨q, hq, hpq⟩
    by_cases hqk : q.1 == k
    · rw [if_pos hqk] at hpq
      rw [← hpq]
      exact keepField_of_ne_undefined k v hv
    · rw [if_neg hqk] at hpq
      rw [← hpq]
      exact hf q hq
  · rw [if_neg ha] at hp
    rcases List.mem_append.mp hp with hq | hq
    · exact hf p hq
    · rcases List.mem_singleton.mp hq with rfl
      exact keepField_of_ne_undefined k v hv

theorem stripUndefined_obj (fs : Fields) :
    stripUndefined (JVal.vObj fs) = JVal.vObj (fs.filter keepField) := rfl

theorem stripUndefined_of_all_keep (fs : Fields) (h : fs.all keepField = true) :
    stripUndefined (JVal.vObj fs) = JVal.vObj fs := by
  rw [stripUndefined_obj, List.filter_eq_self.mpr]
  intro a ha
  exact (List.all_eq_true.mp h) a ha

theorem mergeObj_three (fs : Fields) (k1 k2 k3 : String) (v1 v2 v3 : JVal) :
    mergeObj fs [(k1, v1), (k2, v2), (k3, v3)] =
      setField (setField (setField fs k1 v1) k2 v2) k3 v3 := rfl

theorem find?_merge_three_first (fs : Fields) (k1 k2 k3 : String)
    (v1 v2 v3 : JVal) (h21 : k2 ≠ k1) (h31 : k3 ≠ k1) :
    (mergeObj fs [(k1, v1), (k2, v2), (k3, v3)]).find? (fun q => q.1 == k1) =
      some (k1, v1) := by
  rw [mergeObj_three,
    find?_setField_ne (setField (setField fs k1 v1) k2 v2) k3 k1 v3 (fun hc => h31 hc.symm),
    find?_setField_ne (setField fs k1 v1) k2 k1 v2 (fun hc => h21 hc.symm),
    find?_setField_self]

theorem getStep_merge_three_first (fs : Fields) (k1 k2 k3 : String)
    (v1 v2 v3 : JVal) (h21 : k2 ≠ k1) (h31 : k3 ≠ k1) :
    getStep (JVal.vObj (mergeObj fs [(k1, v1), (k2, v2), (k3, v3)])) k1 = v1 := by
  rw [getStep_obj, find?_merge_three_first fs k1 k2 k3 v1 v2 v3 h21 h31]

theorem getStep_strip_merge_three_first (fs : Fields) (k1 k2 k3 : String)
    (v1 v2 v3 : JVal) (h21 : k2 ≠ k1) (h31 : k3 ≠ k1) (hv : v1 ≠ JVal.vUndefined) :
    getStep (stripUndefined (JVal.vObj (mergeObj fs [(k1, v1), (k2, v2), (k3, v3)]))) k1 = v1 := by
  rw [stripUndefined_obj, getStep_obj,
    find?_filter_of_pred _ keepField _ (k1, v1)
      (find?_merge_three_first fs k1 k2 k3 v1 v2 v3 h21 h31)
      (keepField_of_ne_undefined k1 v1 hv)]

/-- C9 counterexample: a document that carries the id field `""`
(present but falsy) does not keep it; `insertOne` stores the freshly
generated id `"g"` instead, because the source tests `document.id`
for truthiness, not for presence. -/
theorem c9_counterexample :
    (insertOne [] (JVal.vObj [("id", JVal.vStr "")]) "g" "T1" "T2" none).2 =
      Except.ok (JVal.vObj [("id", JVal.vStr "g"), ("createdAt", JVal.vStr "T1"),
        ("updatedAt", JVal.vStr "T2")]) := rfl

/-- C9 (amended): when the document's existing `id` is truthy,
`insertOne` keeps it: the whole result is independent of the generated
id, the returned record is the document stamped with the original
`id`, `createdAt` and `updatedAt`, and both the returned and the
serialized (stored) record carry that original id.  An id is
generated exactly when the document's `id` is absent or falsy. -/
theorem c9_truthy_id_preserved (c : Collection) (doc : JVal)
    (g1 g2 n1 n2 : String) (fn : Option String)
    (ht : jsTruthy (getStep doc "id") = true) :
    insertOne c doc g1 n1 n2 fn = insertOne c doc g2 n1 n2 fn ∧
    (insertOne c doc g1 n1 n2 fn).2 =
      Except.ok (JVal.vObj (mergeObj (docFields doc)
        [("id", getStep doc "id"), ("createdAt", JVal.vStr n1),
         ("updatedAt", JVal.vStr n2)])) ∧
    getStep (JVal.vObj (mergeObj (docFields doc)
        [("id", getStep doc "id"), ("createdAt", JVal.vStr n1),
         ("updatedAt", JVal.vStr n2)])) "id" = getStep doc "id" ∧
    getStep (stripUndefined (JVal.vObj (mergeObj (docFields doc)
        [("id", getStep doc "id"), ("createdAt", JVal.vStr n1),
         ("updatedAt", JVal.vStr n2)]))) "id" = getStep doc "id" := by
  refine ⟨?_, ?_, ?_, ?_⟩
  · simp [insertOne, ht]
  · simp [insertOne, ht, mergedDoc]
  · exact getStep_merge_three_first (docFields doc) "id" "createdAt" "updatedAt"
      (getStep doc "id") (JVal.vStr n1) (JVal.vStr n2) (by decide) (by decide)
  · exact getStep_strip_merge_three_first (docFields doc) "id" "createdAt" "updatedAt"
      (getStep doc "id") (JVal.vStr n1) (JVal.vStr n2) (by decide) (by decide)
      (jsTruthy_ne_undefined (getStep doc "id") ht)

/-- C9 witness: the amended theorem applied to a concrete document
carrying the truthy id `"x"`; the two generator outputs `"a"` and
`"b"` give the same result and the id stays `"x"`. -/
theorem c9_witness :
    insertOne [] (JVal.vObj [("id", JVal.vStr "x")]) "a" "T1" "T2" none =
      insertOne [] (JVal.vObj [("id", JVal.vStr "x")]) "b" "T1" "T2" none ∧
    (insertOne [] (JVal.vObj [("id", JVal.vStr "x")]) "a" "T1" "T2" none).2 =
      Except.ok (JVal.vObj (mergeObj (docFields (JVal.vObj [("id", JVal.vStr "x")]))
        [("id", getStep (JVal.vObj [("id", JVal.vStr "x")]) "id"),
         ("createdAt", JVal.vStr "T1"), ("updatedAt", JVal.vStr "T2")])) ∧
    getStep (JVal.vObj (mergeObj (docFields (JVal.vObj [("id", JVal.vStr "x")]))
        [("id", getStep (JVal.vObj [("id", JVal.vStr "x")]) "id"),
         ("createdAt", JVal.vStr "T1"), ("updatedAt", JVal.vStr "T2")])) "id" =
      getStep (JVal.vObj [("id", JVal.vStr "x")]) "id" ∧
    getStep (stripUndefined (JVal.vObj (mergeObj (docFields (JVal.vObj [("id", JVal.vStr "x")]))
        [("id", getStep (JVal.vObj [("id", JVal.vStr "x")]) "id"),
         ("createdAt", JVal.vStr "T1"), ("updatedAt", JVal.vStr "T2")]))) "id" =
      getStep (JVal.vObj [("id", JVal.vStr "x")]) "id" :=
  c9_truthy_id_preserved [] (JVal.vObj [("id", JVal.vStr "x")]) "a" "b" "T1" "T2" none rfl

/-- C8: round trip.  Inserting a document that has no truthy id (the
claim's "generated id" case) with no explicit file name, and then
looking it up by the id `insertOne` returned, yields exactly the
record `insertOne` returned: the input document extended with the
generated `id` and the `createdAt`/`updatedAt` stamps.  The document
is JSON-compatible (no field holds the undefined sentinel), and the
generated id is a non-empty string. -/
theorem c8_roundtrip (c : Collection) (doc : JVal) (genId n1 n2 : String)
    (hid : jsTruthy (getStep doc "id") = false)
    (hgen : genId ≠ "")
    (hclean : (docFields doc).all keepField = true) :
    (insertOne c doc genId n1 n2 none).2 =
      Except.ok (JVal.vObj (mergeObj (docFields doc)
        [("id", JVal.vStr genId), ("createdAt", JVal.vStr n1),
         ("updatedAt", JVal.vStr n2)])) ∧
    findOne (insertOne c doc genId n1 n2 none).1 genId =
      Except.ok (some (JVal.vObj (mergeObj (docFields doc)
        [("id", JVal.vStr genId), ("createdAt", JVal.vStr n1),
         ("updatedAt", JVal.vStr n2)]))) := by
  have hall : (mergeObj (docFields doc)
      [("id", JVal.vStr genId), ("createdAt", JVal.vStr n1),
       ("updatedAt", JVal.vStr n2)]).all keepField = true := by
    rw [mergeObj_three]
    exact all_keep_setField _ _ _
      (all_keep_setField _ _ _
        (all_keep_setField _ _ _ hclean (by simp)) (by simp)) (by simp)
  have hstrip := stripUndefined_of_all_keep _ hall
  constructor
  · simp [insertOne, hid]
  · have hstate : (insertOne c doc genId n1 n2 none).1 =
        writeJson c (genId ++ ".json") (JVal.vObj (mergeObj (docFields doc)
          [("id", JVal.vStr genId), ("createdAt", JVal.vStr n1),
           ("updatedAt", JVal.vStr n2)])) := by
      simp [insertOne, hid, jsTemplateStr]
    rw [hstate]
    unfold findOne
    rw [if_neg hgen, lookupFile_writeJson_self, hstrip]

/-- C8 witness: the round trip at a concrete one-field document and
generated id `"g"`. -/
theorem c8_witness :
    (insertOne [] (JVal.vObj [("age", JVal.vNum 30)]) "g" "T1" "T2" none).2 =
      Except.ok (JVal.vObj (mergeObj (docFields (JVal.vObj [("age", JVal.vNum 30)]))
        [("id", JVal.vStr "g"), ("createdAt", JVal.vStr "T1"),
         ("updatedAt", JVal.vStr "T2")])) ∧
    findOne (insertOne [] (JVal.vObj [("age", JVal.vNum 30)]) "g" "T1" "T2" none).1 "g" =
      Except.ok (some (JVal.vObj (mergeObj (docFields (JVal.vObj [("age", JVal.vNum 30)]))
        [("id", JVal.vStr "g"), ("createdAt", JVal.vStr "T1"),
         ("updatedAt", JVal.vStr "T2")]))) :=
  c8_roundtrip [] (JVal.vObj [("age", JVal.vNum 30)]) "g" "T1" "T2" rfl
    (by decide) rfl

theorem findManyAux_error (c : Collection) (q : Option Fields) (n : String)
    (hskip : skipFile n = false) (hbad : lookupFile c n = some none) :
    ∀ (names : List String), n ∈ names → ∀ (acc : List JVal),
      ∃ msg, findManyAux c q names acc = Except.error msg := by
  intro names
  induction names with
  | nil => intro h; simp at h
  | cons m rest ih =>
    intro hmem acc
    rcases List.mem_cons.mp hmem with h1 | h1
    · subst h1
      simp only [findManyAux, hskip, Bool.false_eq_true, if_false, hbad]
      exact ⟨_, rfl⟩
    · by_cases hm : skipFile m
      · simp only [findManyAux, hm, if_true]
        exact ih h1 acc
      · simp only [Bool.not_eq_true] at hm
        simp only [findManyAux, hm, Bool.false_eq_true, if_false]
        cases hl : lookupFile c m with
        | none => exact ⟨_, rfl⟩
        | some o =>
          cases o with
          | none => exact ⟨_, rfl⟩
          | some d =>
            cases q with
            | none => exact ih h1 (acc ++ [d])
            | some filt =>
              by_cases hmt : matchesFilter d filt
              · simp only [hmt, if_true]
                exact ih h1 (acc ++ [d])
              · simp only [Bool.not_eq_true] at hmt
                simp only [hmt, Bool.false_eq_true, if_false]
                exact ih h1 acc

/-- C4 counterexample: the early prototype variant of `findOne`
(src/model.ts) raises on a read failure — looking up the id `"x"` in
an empty collection, where the file is absent, propagates the wrapped
error instead of returning the null result, so "findOne never
raises", quantified over the repository's findOne implementations,
is false. -/
theorem c4_counterexample :
    findOneEarly [] "x" = Except.error "Error finding document" := rfl

/-- C4 (amended): in the two `ODModel` variants, `findOne` never
raises: whatever the collection state (file absent or unparsable), it
answers with an `ok` result, using `null` for every failure; and
`findMany`, on a collection holding a non-artifact file whose read or
parse fails, raises an error and returns no partial results.  The
early prototype variant of `findOne` (src/model.ts) instead wraps and
re-raises any read or parse failure. -/
theorem c4_error_asymmetry :
    (∀ (c : Collection) (id : String), ∃ r, findOne c id = Except.ok r) ∧
    (∀ (c : Collection) (q : Option Fields) (n : String),
      n ∈ c.map (fun e => e.1) → skipFile n = false → lookupFile c n = some none →
      ∃ msg, findMany c q = Except.error msg) ∧
    (∀ (c : Collection) (id : String),
      lookupFile c (id ++ ".json") = some none ∨ lookupFile c (id ++ ".json") = none →
      ∃ msg, findOneEarly c id = Except.error msg) := by
  refine ⟨?_, ?_, ?_⟩
  · intro c id
    unfold findOne
    by_cases h : id = ""
    · rw [if_pos h]; exact ⟨none, rfl⟩
    · rw [if_neg h]
      cases hl : lookupFile c (id ++ ".json") with
      | none => exact ⟨none, rfl⟩
      | some o =>
        cases o with
        | none => exact ⟨none, rfl⟩
        | some d => exact ⟨some d, rfl⟩
  · intro c q n hmem hskip hbad
    unfold findMany
    exact findManyAux_error c q n hskip hbad _ hmem []
  · intro c id hbad
    unfold findOneEarly
    rcases hbad with hbad | hbad <;> rw [hbad] <;> exact ⟨_, rfl⟩

/-- C4 witness: the asymmetry at concrete states: `findOne` on an
empty collection is `ok`, `findMany` on a collection whose only file
is unreadable raises, and the early prototype `findOne` raises on an
unreadable file. -/
theorem c4_witness :
    (∃ r, findOne [] "x" = Except.ok r) ∧
    (∃ msg, findMany [("a.json", (none : Option JVal))] none = Except.error msg) ∧
    (∃ msg, findOneEarly [("x.json", (none : Option JVal))] "x" = Except.error msg) :=
  ⟨c4_error_asymmetry.1 [] "x",
   c4_error_asymmetry.2.1 [("a.json", none)] none "a.json" (by simp) rfl rfl,
   c4_error_asymmetry.2.2 [("x.json", none)] "x" (Or.inl rfl)⟩

theorem findManyAux_ok (c : Collection) :
    ∀ (names : List String),
      (∀ n ∈ names, skipFile n = false → ∃ d, lookupFile c n = some (some d)) →
      ∀ acc, findManyAux c (some []) names acc = Except.ok (acc ++ docsFor c names) := by
  intro names
  induction names with
  | nil => intro _ acc; simp [findManyAux, docsFor]
  | cons m rest ih =>
    intro hp acc
    have hrest := fun n hn => hp n (List.mem_cons_of_mem m hn)
    by_cases hm : skipFile m
    · simp only [findManyAux, hm, if_true, docsFor]
      exact ih hrest acc
    · simp only [Bool.not_eq_true] at hm
      rcases hp m (List.mem_cons_self m rest) hm with ⟨d, hd⟩
      have hmt : matchesFilter d [] = true := rfl
      simp only [findManyAux, hm, Bool.false_eq_true, if_false, hd, hmt, if_true, docsFor]
      rw [ih hrest (acc ++ [d])]
      simp

theorem docsFor_cons_notmem (e : String × Option JVal) (c : Collection) :
    ∀ (names : List String), e.1 ∉ names → docsFor (e :: c) names = docsFor c names := by
  intro names
  induction names with
  | nil => intro _; rfl
  | cons m rest ih =>
    intro hmem
    have hne : ¬ (e.1 = m) := fun hc => hmem (hc ▸ List.mem_cons_self m rest)
    have hl : lookupFile (e :: c) m = lookupFile c m := by
      rw [lookupFile_cons, if_neg hne]
    have hrest : e.1 ∉ rest := fun hc => hmem (List.mem_cons_of_mem m hc)
    by_cases hm : skipFile m
    · simp only [docsFor, hm, if_true]
      exact ih hrest
    · simp only [Bool.not_eq_true] at hm
      simp only [docsFor, hm, Bool.false_eq_true, if_false, hl]
      cases lookupFile c m with
      | none => exact ih hrest
      | some o =>
        cases o with
        | none => exact ih hrest
        | some d => rw [ih hrest]

theorem docsFor_names_eq_scanned (c : Collection)
    (hnd : (c.map (fun e => e.1)).Nodup) :
    docsFor c (c.map (fun e => e.1)) = scannedDocs c := by
  induction c with
  | nil => rfl
  | cons e rest ih =>
    rw [List.map_cons, List.nodup_cons] at hnd
    have hl : lookupFile (e :: rest) e.1 = some e.2 := by
      rw [lookupFile_cons, if_pos rfl]
    have hnotmem : e.1 ∉ rest.map (fun x => x.1) := hnd.1
    by_cases hm : skipFile e.1
    · simp only [List.map_cons, docsFor, hm, if_true, scannedDocs, List.filterMap_cons]
      rw [docsFor_cons_notmem e rest _ hnotmem]
      exact ih hnd.2
    · simp only [Bool.not_eq_true] at hm
      simp only [List.map_cons, docsFor, hm, Bool.false_eq_true, if_false, hl,
        scannedDocs, List.filterMap_cons]
      cases e.2 with
      | none =>
        rw [docsFor_cons_notmem e rest _ hnotmem]
        exact ih hnd.2
      | some d =>
        rw [docsFor_cons_notmem e rest _ hnotmem]
        have ih' := ih hnd.2
        rw [scannedDocs] at ih'
        show d :: docsFor rest (rest.map (fun x => x.1)) =
          d :: rest.filterMap (fun e => if skipFile e.1 = true then none else e.2)
        rw [ih']

theorem removeFile_names (c : Collection) (n : String) :
    (removeFile c n).map (fun e => e.1) = (c.map (fun e => e.1)).filter (fun x => x != n) := by
  induction c with
  | nil => rfl
  | cons e rest ih =>
    rw [removeFile_cons]
    by_cases he : e.1 = n
    · have hb : (e.1 != n) = false := by simp [he]
      simp only [List.map_cons, List.filter_cons, hb, Bool.false_eq_true, if_false]
      rw [if_pos he, ih]
    · have hb : (e.1 != n) = true := by simp [he]
      simp only [List.map_cons, List.filter_cons, hb, if_true]
      rw [if_neg he, List.map_cons, ih]

theorem delEntries_nil (c : Collection) : delEntries [] c = c := by
  unfold delEntries
  rw [List.filter_eq_self.mpr]
  intro e _
  simp

theorem delEntries_cons_skip (n : String) (rest : List String) (c : Collection)
    (hm : skipFile n = true) : delEntries (n :: rest) c = delEntries rest c := by
  unfold delEntries
  apply List.filter_congr
  intro e _
  by_cases he : e.1 = n
  · rw [he]
    simp [hm]
  · have : ((n :: rest).contains e.1) = (rest.contains e.1) := by
      simp [List.contains_cons, he]
    rw [this]

theorem delEntries_rest_removeFile (n : String) (rest : List String) (c : Collection)
    (hm : skipFile n = false) :
    delEntries rest (removeFile c n) = delEntries (n :: rest) c := by
  unfold delEntries removeFile
  rw [List.filter_filter]
  apply List.filter_congr
  intro e _
  by_cases he : e.1 = n
  · rw [he]
    simp [hm]
  · have h1 : (e.1 != n) = true := by simp [he]
    have h2 : ((n :: rest).contains e.1) = (rest.contains e.1) := by
      simp [List.contains_cons, he]
    rw [h2, h1]
    simp

theorem fmdAux_spec :
    ∀ (names : List String) (c : Collection),
      (c.map (fun e => e.1)).Nodup → names.Nodup →
      (∀ n ∈ names, skipFile n = false → ∃ d, lookupFile c n = some (some d)) →
      findManyAndDeleteAux [] c names = (delEntries names c, Except.ok true) := by
  intro names
  induction names with
  | nil =>
    intro c _ _ _
    rw [delEntries_nil]
    rfl
  | cons m rest ih =>
    intro c hndc hnd hp
    rw [List.nodup_cons] at hnd
    have hrest := fun n hn => hp n (List.mem_cons_of_mem m hn)
    by_cases hm : skipFile m
    · rw [delEntries_cons_skip m rest c hm]
      simp only [findManyAndDeleteAux, hm, if_true]
      exact ih c hndc hnd.2 hrest
    · simp only [Bool.not_eq_true] at hm
      rcases hp m (List.mem_cons_self m rest) hm with ⟨d, hd⟩
      have hmt : matchesFilter d [] = true := rfl
      simp only [findManyAndDeleteAux, hm, Bool.false_eq_true, if_false, hd, hmt, if_true]
      have hndc' : ((removeFile c m).map (fun e => e.1)).Nodup := by
        rw [removeFile_names]
        exact List.Nodup.filter _ hndc
      have hp' : ∀ n ∈ rest, skipFile n = false → ∃ d', lookupFile (removeFile c m) n = some (some d') := by
        intro n hn hs
        have hne : n ≠ m := fun hc => hnd.1 (hc ▸ hn)
        rw [lookupFile_removeFile_ne c m n hne]
        exact hrest n hn hs
      rw [ih (removeFile c m) hndc' hnd.2 hp']
      rw [delEntries_rest_removeFile m rest c hm]

/-- C10: the empty filter is the identity of the filter algebra.
Every document matches the empty filter; consequently, on a
collection whose non-artifact files all parse, `findMany` with the
empty filter returns every document and `findManyAndDelete` with the
empty filter deletes every document, leaving only the artifact
files. -/
theorem c10_empty_filter_identity :
    (∀ doc : JVal, matchesFilter doc [] = true) ∧
    (∀ c : Collection, (c.map (fun e => e.1)).Nodup →
      (∀ e ∈ c, skipFile e.1 = false → e.2.isSome = true) →
      findMany c (some []) = Except.ok (scannedDocs c)) ∧
    (∀ c : Collection, (c.map (fun e => e.1)).Nodup →
      (∀ e ∈ c, skipFile e.1 = false → e.2.isSome = true) →
      findManyAndDelete c [] = (artifactsOnly c, Except.ok true)) := by
  have hparse : ∀ (c : Collection), (c.map (fun e => e.1)).Nodup →
      (∀ e ∈ c, skipFile e.1 = false → e.2.isSome = true) →
      ∀ n ∈ c.map (fun e => e.1), skipFile n = false →
        ∃ d, lookupFile c n = some (some d) := by
    intro c hnd h n hn hs
    rcases List.mem_map.mp hn with ⟨e, he, hen⟩
    have hl := lookupFile_of_mem c hnd e he
    have h2 := h e he (hen ▸ hs)
    rcases Option.isSome_iff_exists.mp h2 with ⟨d, hd⟩
    exact ⟨d, by rw [← hen, hl, hd]⟩
  refine ⟨fun doc => rfl, ?_, ?_⟩
  · intro c hnd h
    unfold findMany
    rw [findManyAux_ok c _ (hparse c hnd h) []]
    rw [docsFor_names_eq_scanned c hnd]
    rfl
  · intro c hnd h
    unfold findManyAndDelete
    rw [fmdAux_spec _ c hnd hnd (hparse c hnd h)]
    have : delEntries (c.map (fun e => e.1)) c = artifactsOnly c := by
      unfold delEntries artifactsOnly
      apply List.filter_congr
      intro e he
      have hmem : e.1 ∈ c.map (fun x => x.1) := List.mem_map_of_mem (fun x => x.1) he
      have hcont : ((c.map (fun x => x.1)).contains e.1) = true :=
        List.elem_eq_true_of_mem hmem
      rw [hcont]
      simp
    rw [this]

/-- C10 witness: the empty-filter laws at a concrete two-file
collection containing one document and one artifact file. -/
theorem c10_witness :
    matchesFilter (JVal.vObj [("x", JVal.vNum 1)]) [] = true ∧
    findMany [("a.json", some (JVal.vObj [("x", JVal.vNum 1)])), (".DS_Store", none)]
        (some []) =
      Except.ok (scannedDocs
        [("a.json", some (JVal.vObj [("x", JVal.vNum 1)])), (".DS_Store", none)]) ∧
    findManyAndDelete
        [("a.json", some (JVal.vObj [("x", JVal.vNum 1)])), (".DS_Store", none)] [] =
      (artifactsOnly
        [("a.json", some (JVal.vObj [("x", JVal.vNum 1)])), (".DS_Store", none)],
       Except.ok true) :=
  ⟨c10_empty_filter_identity.1 (JVal.vObj [("x", JVal.vNum 1)]),
   c10_empty_filter_identity.2.1
     [("a.json", some (JVal.vObj [("x", JVal.vNum 1)])), (".DS_Store", none)]
     (by decide) (by decide),
   c10_empty_filter_identity.2.2
     [("a.json", some (JVal.vObj [("x", JVal.vNum 1)])), (".DS_Store", none)]
     (by decide) (by decide)⟩

theorem updEntries_nil (q u : Fields) (c : Collection) : updEntries q u [] c = c := by
  unfold updEntries
  rw [show (c.map (fun e =>
      if ([] : List String).contains e.1 && !skipFile e.1 then
        match e.2 with
        | some d =>
          if matchesFilter d q then (e.1, some (stripUndefined (mergedDoc d u))) else e
        | none => e
      else e)) = c.map (fun e => e) from List.map_congr_left (fun e _ => by simp)]
  exact List.map_id c

theorem updEntries_cons_skip (q u : Fields) (n : String) (rest : List String)
    (c : Collection) (hm : skipFile n = true) :
    updEntries q u (n :: rest) c = updEntries q u rest c := by
  unfold updEntries
  apply List.map_congr_left
  intro e _
  by_cases he : e.1 = n
  · rw [he]
    simp [hm]
  · have : ((n :: rest).contains e.1) = (rest.contains e.1) := by
      simp [List.contains_cons, he]
    rw [this]

theorem updEntries_cons_notmem (q u : Fields) (n : String) (rest : List String)
    (c : Collection) (h : n ∉ c.map (fun e => e.1)) :
    updEntries q u (n :: rest) c = updEntries q u rest c := by
  unfold updEntries
  apply List.map_congr_left
  intro e he
  have hne : ¬ (e.1 = n) := fun hc =>
    h (hc ▸ List.mem_map_of_mem (fun x => x.1) he)
  have : ((n :: rest).contains e.1) = (rest.contains e.1) := by
    simp [List.contains_cons, hne]
  rw [this]

theorem docsFor_writeJson_ne (c : Collection) (m : String) (v : JVal) :
    ∀ names, m ∉ names → docsFor (writeJson c m v) names = docsFor c names := by
  intro names
  induction names with
  | nil => intro _; rfl
  | cons n rest ih =>
    intro hmem
    have hne : n ≠ m := fun hc => hmem (hc ▸ List.mem_cons_self n rest)
    have hrest : m ∉ rest := fun hc => hmem (List.mem_cons_of_mem n hc)
    have hl : lookupFile (writeJson c m v) n = lookupFile c n :=
      lookupFile_writeJson_ne c m n v hne
    by_cases hn : skipFile n
    · simp only [docsFor, hn, if_true]
      exact ih hrest
    · simp only [Bool.not_eq_true] at hn
      simp only [docsFor, hn, Bool.false_eq_true, if_false, hl]
      cases lookupFile c n with
      | none => exact ih hrest
      | some o =>
        cases o with
        | none => exact ih hrest
        | some d => rw [ih hrest]

theorem updEntries_cons (q u : Fields) (names : List String)
    (e : String × Option JVal) (c : Collection) :
    updEntries q u names (e :: c) =
      (if names.contains e.1 && !skipFile e.1 then
        match e.2 with
        | some d =>
          if matchesFilter d q then (e.1, some (stripUndefined (mergedDoc d u))) else e
        | none => e
      else e) :: updEntries q u names c := by
  unfold updEntries
  rw [List.map_cons]

theorem updEntries_writeJson (q u : Fields) (n : String) (rest : List String) (d : JVal) :
    ∀ c : Collection, (c.map (fun e => e.1)).Nodup →
      lookupFile c n = some (some d) → skipFile n = false → n ∉ rest →
      matchesFilter d q = true →
      updEntries q u rest (writeJson c n (mergedDoc d u)) = updEntries q u (n :: rest) c := by
  intro c
  induction c with
  | nil => intro _ hl; simp [lookupFile] at hl
  | cons e cs ih =>
    intro hnd hl hskip hmem hmt
    rw [List.map_cons, List.nodup_cons] at hnd
    rw [writeJson_cons]
    by_cases he : e.1 = n
    · rw [if_pos he]
      rw [lookupFile_cons, if_pos he] at hl
      have he2 : e.2 = some d := by injection hl
      have hcr : (rest.contains n) = false := by
        cases hcc : rest.contains n with
        | false => rfl
        | true => exact absurd (List.elem_iff.mp hcc) hmem
      have hncs : n ∉ cs.map (fun x => x.1) := he ▸ hnd.1
      rw [updEntries_cons, updEntries_cons]
      congr 1
      · simp only [hcr, hskip, he, he2, hmt, List.contains_cons, beq_self_eq_true,
          Bool.true_or, Bool.false_and, Bool.false_eq_true, if_false, Bool.not_false,
          Bool.and_true, Bool.true_and, if_true]
      · exact (updEntries_cons_notmem q u n rest cs hncs).symm
    · rw [if_neg he]
      rw [lookupFile_cons, if_neg he] at hl
      rw [updEntries_cons, updEntries_cons]
      congr 1
      · rw [show ((n :: rest).contains e.1) = (rest.contains e.1) by
          simp [List.contains_cons, he]]
      · exact ih hnd.2 hl hskip hmem hmt

theorem updEntries_nomatch (q u : Fields) (n : String) (rest : List String) (d : JVal)
    (c : Collection) (hnd : (c.map (fun e => e.1)).Nodup)
    (hl : lookupFile c n = some (some d)) (hskip : skipFile n = false)
    (hmem : n ∉ rest) (hmt : matchesFilter d q = false) :
    updEntries q u rest c = updEntries q u (n :: rest) c := by
  unfold updEntries
  apply List.map_congr_left
  intro e he
  by_cases hen : e.1 = n
  · have hle := lookupFile_of_mem c hnd e he
    rw [hen, hl] at hle
    have he2 : e.2 = some d := by
      injection hle.symm
    have hcr : (rest.contains n) = false := by
      cases hcc : rest.contains n with
      | false => rfl
      | true => exact absurd (List.elem_iff.mp hcc) hmem
    simp only [hen, he2, hcr, hskip, hmt, List.contains_cons, beq_self_eq_true,
      Bool.true_or, Bool.false_and, Bool.false_eq_true, if_false, Bool.not_false,
      Bool.and_true, Bool.true_and, if_true]
  · rw [show ((n :: rest).contains e.1) = (rest.contains e.1) by
      simp [List.contains_cons, hen]]

theorem fmuAux_spec (q u : Fields) :
    ∀ (names : List String) (c : Collection) (acc : List JVal),
      (c.map (fun e => e.1)).Nodup → names.Nodup →
      (∀ n ∈ names, n ∈ c.map (fun e => e.1)) →
      (∀ n ∈ names, skipFile n = false → ∃ d, lookupFile c n = some (some d)) →
      findManyAndUpdateAux q u c names acc =
        (updEntries q u names c, Except.ok (acc ++ docsFor c names)) := by
  intro names
  induction names with
  | nil =>
    intro c acc _ _ _ _
    rw [updEntries_nil]
    simp [findManyAndUpdateAux, docsFor]
  | cons m rest ih =>
    intro c acc hndc hnd hsub hp
    rw [List.nodup_cons] at hnd
    have hsubr := fun n hn => hsub n (List.mem_cons_of_mem m hn)
    have hpr := fun n hn => hp n (List.mem_cons_of_mem m hn)
    by_cases hm : skipFile m
    · rw [updEntries_cons_skip q u m rest c hm]
      simp only [findManyAndUpdateAux, hm, if_true, docsFor]
      exact ih c acc hndc hnd.2 hsubr hpr
    · simp only [Bool.not_eq_true] at hm
      rcases hp m (List.mem_cons_self m rest) hm with ⟨d, hd⟩
      have hdocs : docsFor c (m :: rest) = d :: docsFor c rest := by
        simp only [docsFor, hm, Bool.false_eq_true, if_false, hd]
      simp only [findManyAndUpdateAux, hm, Bool.false_eq_true, if_false, hd]
      by_cases hmt : matchesFilter d q
      · rw [if_pos hmt]
        have hmm : m ∈ c.map (fun e => e.1) := hsub m (List.mem_cons_self m rest)
        have hnames := writeJson_names c m (mergedDoc d u) hmm
        have hndc' : ((writeJson c m (mergedDoc d u)).map (fun e => e.1)).Nodup := by
          rw [hnames]; exact hndc
        have hsub' : ∀ n ∈ rest, n ∈ (writeJson c m (mergedDoc d u)).map (fun e => e.1) := by
          intro n hn
          rw [hnames]; exact hsubr n hn
        have hp' : ∀ n ∈ rest, skipFile n = false →
            ∃ d', lookupFile (writeJson c m (mergedDoc d u)) n = some (some d') := by
          intro n hn hs
          have hne : n ≠ m := fun hc => hnd.1 (hc ▸ hn)
          rw [lookupFile_writeJson_ne c m n (mergedDoc d u) hne]
          exact hpr n hn hs
        rw [ih (writeJson c m (mergedDoc d u)) (acc ++ [d]) hndc' hnd.2 hsub' hp']
        rw [updEntries_writeJson q u m rest d c hndc hd hm hnd.1 hmt]
        rw [docsFor_writeJson_ne c m (mergedDoc d u) rest hnd.1]
        rw [hdocs, List.append_assoc]
        rfl
      · simp only [Bool.not_eq_true] at hmt
        rw [hmt]
        simp only [Bool.false_eq_true, if_false]
        rw [ih c (acc ++ [d]) hndc hnd.2 hsubr hpr]
        rw [updEntries_nomatch q u m rest d c hndc hd hm hnd.1 hmt]
        rw [hdocs, List.append_assoc]
        rfl

theorem parse_names_of_entries (c : Collection)
    (hnd : (c.map (fun e => e.1)).Nodup)
    (h : ∀ e ∈ c, skipFile e.1 = false → e.2.isSome = true) :
    ∀ n ∈ c.map (fun e => e.1), skipFile n = false →
      ∃ d, lookupFile c n = some (some d) := by
  intro n hn hs
  rcases List.mem_map.mp hn with ⟨e, he, hen⟩
  have hl := lookupFile_of_mem c hnd e he
  have h2 := h e he (hen ▸ hs)
  rcases Option.isSome_iff_exists.mp h2 with ⟨d, hd⟩
  exact ⟨d, by rw [← hen, hl, hd]⟩

/-- C2: `findManyAndUpdate` persists the shallow merge of the update
over each matching document (every other file untouched), and the
collection it returns is the pre-update snapshot of every scanned
document, matching or not — the returned list never reflects the
newly written state. -/
theorem c2_findManyAndUpdate_pre_update (c : Collection) (q u : Fields)
    (hnd : (c.map (fun e => e.1)).Nodup)
    (h : ∀ e ∈ c, skipFile e.1 = false → e.2.isSome = true) :
    findManyAndUpdate c q u = (updateMatching q u c, Except.ok (scannedDocs c)) := by
  unfold findManyAndUpdate
  rw [fmuAux_spec q u (c.map (fun e => e.1)) c [] hnd hnd (fun n hn => hn)
    (parse_names_of_entries c hnd h)]
  have hupd : updEntries q u (c.map (fun e => e.1)) c = updateMatching q u c := by
    unfold updEntries updateMatching
    apply List.map_congr_left
    intro e he
    have hcont : ((c.map (fun x => x.1)).contains e.1) = true :=
      List.elem_eq_true_of_mem (List.mem_map_of_mem (fun x => x.1) he)
    rw [hcont]
    by_cases hs : skipFile e.1
    · simp [hs]
    · simp only [Bool.not_eq_true] at hs
      simp [hs]
  rw [hupd, docsFor_names_eq_scanned c hnd]
  rfl

/-- C2 witness: the theorem at a two-document collection where
exactly one document matches the filter: the matching file is
persisted as the merge, and the returned list holds both pre-update
documents. -/
theorem c2_witness :
    findManyAndUpdate
        [("a.json", some (JVal.vObj [("age", JVal.vNum 30)])),
         ("b.json", some (JVal.vObj [("age", JVal.vNum 10)]))]
        [("age", JVal.vObj [("$gte", JVal.vNum 20)])] [("age", JVal.vNum 31)] =
      (updateMatching [("age", JVal.vObj [("$gte", JVal.vNum 20)])] [("age", JVal.vNum 31)]
        [("a.json", some (JVal.vObj [("age", JVal.vNum 30)])),
         ("b.json", some (JVal.vObj [("age", JVal.vNum 10)]))],
       Except.ok (scannedDocs
        [("a.json", some (JVal.vObj [("age", JVal.vNum 30)])),
         ("b.json", some (JVal.vObj [("age", JVal.vNum 10)]))])) :=
  c2_findManyAndUpdate_pre_update
    [("a.json", some (JVal.vObj [("age", JVal.vNum 30)])),
     ("b.json", some (JVal.vObj [("age", JVal.vNum 10)]))]
    [("age", JVal.vObj [("$gte", JVal.vNum 20)])] [("age", JVal.vNum 31)]
    (by decide) (by decide)

theorem getStep_setField_self (fs : Fields) (k : String) (v : JVal) :
    getStep (JVal.vObj (setField fs k v)) k = v := by
  rw [getStep_obj, find?_setField_self]

/-- C3 counterexample: on the stored document
`\x7bid: "x", age: 30, name: "A"\x7d`, the legacy variant of
`findByIdAndUpdate` applied to the update `\x7bage: 31\x7d` drops the
existing field `name` (the claim says every existing field not named
in the update is kept), and the mature variant applied to an update
carrying `id: "y"` stores id `"y"` (the claim says the existing id is
force-preserved even if the update carries one). -/
theorem c3_counterexample :
    (findByIdAndUpdateLegacy
        [("x.json", some (JVal.vObj [("id", JVal.vStr "x"), ("age", JVal.vNum 30),
          ("name", JVal.vStr "A")]))] "x" [("age", JVal.vNum 31)] "T").2 =
      Except.ok (some (JVal.vObj [("age", JVal.vNum 31), ("id", JVal.vStr "x"),
        ("updatedAt", JVal.vStr "T")])) ∧
    (findByIdAndUpdate
        [("x.json", some (JVal.vObj [("id", JVal.vStr "x"), ("age", JVal.vNum 30),
          ("name", JVal.vStr "A")]))] "x"
        [("id", JVal.vStr "y"), ("age", JVal.vNum 31)] "T").2 =
      Except.ok (some (JVal.vObj [("id", JVal.vStr "y"), ("age", JVal.vNum 31),
        ("name", JVal.vStr "A"), ("updatedAt", JVal.vStr "T")])) :=
  ⟨rfl, rfl⟩

/-- C3 (amended): the mature variant of `findByIdAndUpdate`
shallow-merges the update over the existing record's fields — the
update wins on every conflicting key, including `id` when the update
carries one at runtime — keeps every existing field not named in the
update, refreshes `updatedAt` (so in particular the id is preserved
exactly when the update does not name it), writes the merged record
and returns it; when no document with the id exists it returns null
and writes nothing.  (The legacy variant instead keeps only the
update's fields plus the forced `id` and `updatedAt`.) -/
theorem c3_findByIdAndUpdate_merge (c : Collection) (id : String) (upd : Fields)
    (now : String) (exf : Fields)
    (hid : id ≠ "")
    (hl : lookupFile c (id ++ ".json") = some (some (JVal.vObj exf))) :
    findByIdAndUpdate c id upd now =
      (writeJson c (id ++ ".json")
        (JVal.vObj (mergeObj (mergeObj exf upd) [("updatedAt", JVal.vStr now)])),
       Except.ok (some (JVal.vObj (mergeObj (mergeObj exf upd)
         [("updatedAt", JVal.vStr now)])))) ∧
    getStep (JVal.vObj (mergeObj (mergeObj exf upd) [("updatedAt", JVal.vStr now)]))
      "updatedAt" = JVal.vStr now ∧
    (∀ k : String, k ≠ "updatedAt" → (∀ p ∈ upd, p.1 ≠ k) →
      getStep (JVal.vObj (mergeObj (mergeObj exf upd) [("updatedAt", JVal.vStr now)])) k =
        getStep (JVal.vObj exf) k) ∧
    (∀ (pre post : Fields) (k : String) (v : JVal), upd = pre ++ (k, v) :: post →
      k ≠ "updatedAt" → (∀ p ∈ post, p.1 ≠ k) →
      getStep (JVal.vObj (mergeObj (mergeObj exf upd) [("updatedAt", JVal.vStr now)])) k = v) ∧
    (∀ (c' : Collection) (id' : String) (upd' : Fields) (now' : String),
      findOne c' id' = Except.ok none →
      findByIdAndUpdate c' id' upd' now' = (c', Except.ok none)) := by
  refine ⟨?_, ?_, ?_, ?_, ?_⟩
  · unfold findByIdAndUpdate findOne
    rw [if_neg hid, hl]
    rfl
  · rw [show mergeObj (mergeObj exf upd) [("updatedAt", JVal.vStr now)] =
      setField (mergeObj exf upd) "updatedAt" (JVal.vStr now) from rfl]
    exact getStep_setField_self (mergeObj exf upd) "updatedAt" (JVal.vStr now)
  · intro k hk hkupd
    rw [show mergeObj (mergeObj exf upd) [("updatedAt", JVal.vStr now)] =
      setField (mergeObj exf upd) "updatedAt" (JVal.vStr now) from rfl]
    rw [getStep_obj, getStep_obj,
      find?_setField_ne (mergeObj exf upd) "updatedAt" k (JVal.vStr now) hk,
      find?_mergeObj_notin exf upd k hkupd]
  · intro pre post k v hupd hk hpost
    subst hupd
    rw [show mergeObj (mergeObj exf (pre ++ (k, v) :: post)) [("updatedAt", JVal.vStr now)] =
      setField (mergeObj exf (pre ++ (k, v) :: post)) "updatedAt" (JVal.vStr now) from rfl]
    rw [getStep_obj,
      find?_setField_ne (mergeObj exf (pre ++ (k, v) :: post)) "updatedAt" k
        (JVal.vStr now) hk]
    rw [mergeObj_append, mergeObj_cons]
    rw [find?_mergeObj_notin (setField (mergeObj exf pre) k v) post k hpost]
    rw [find?_setField_self]
  · intro c' id' upd' now' hnone
    unfold findByIdAndUpdate
    rw [hnone]

/-- C3 witness: the amended theorem at the stored document
`\x7bid: "x", age: 30, name: "A"\x7d` and update `\x7bage: 31\x7d`:
the merged record is written and returned, and since the update does
not name `id`, the id is preserved. -/
theorem c3_witness :
    findByIdAndUpdate
        [("x.json", some (JVal.vObj [("id", JVal.vStr "x"), ("age", JVal.vNum 30),
          ("name", JVal.vStr "A")]))] "x" [("age", JVal.vNum 31)] "T" =
      (writeJson
        [("x.json", some (JVal.vObj [("id", JVal.vStr "x"), ("age", JVal.vNum 30),
          ("name", JVal.vStr "A")]))] ("x" ++ ".json")
        (JVal.vObj (mergeObj (mergeObj
          [("id", JVal.vStr "x"), ("age", JVal.vNum 30), ("name", JVal.vStr "A")]
          [("age", JVal.vNum 31)]) [("updatedAt", JVal.vStr "T")])),
       Except.ok (some (JVal.vObj (mergeObj (mergeObj
          [("id", JVal.vStr "x"), ("age", JVal.vNum 30), ("name", JVal.vStr "A")]
          [("age", JVal.vNum 31)]) [("updatedAt", JVal.vStr "T")])))) ∧
    getStep (JVal.vObj (mergeObj (mergeObj
        [("id", JVal.vStr "x"), ("age", JVal.vNum 30), ("name", JVal.vStr "A")]
        [("age", JVal.vNum 31)]) [("updatedAt", JVal.vStr "T")])) "id" =
      getStep (JVal.vObj
        [("id", JVal.vStr "x"), ("age", JVal.vNum 30), ("name", JVal.vStr "A")]) "id" :=
  ⟨(c3_findByIdAndUpdate_merge
      [("x.json", some (JVal.vObj [("id", JVal.vStr "x"), ("age", JVal.vNum 30),
        ("name", JVal.vStr "A")]))] "x" [("age", JVal.vNum 31)] "T"
      [("id", JVal.vStr "x"), ("age", JVal.vNum 30), ("name", JVal.vStr "A")]
      (by decide) rfl).1,
   (c3_findByIdAndUpdate_merge
      [("x.json", some (JVal.vObj [("id", JVal.vStr "x"), ("age", JVal.vNum 30),
        ("name", JVal.vStr "A")]))] "x" [("age", JVal.vNum 31)] "T"
      [("id", JVal.vStr "x"), ("age", JVal.vNum 30), ("name", JVal.vStr "A")]
      (by decide) rfl).2.2.1 "id" (by decide) (by decide)⟩

theorem digitCharOf_isDigit (n : Nat) (h : n < 10) : (digitCharOf n).isDigit = true := by
  interval_cases n <;> decide

theorem digitCharOf_toNat (n : Nat) (h : n < 10) : (digitCharOf n).toNat - 48 = n := by
  interval_cases n <;> decide

theorem digitsToNatL_append_one (l : List Char) (c : Char) :
    digitsToNatL (l ++ [c]) = digitsToNatL l * 10 + (c.toNat - 48) := by
  unfold digitsToNatL
  rw [List.foldl_append]
  rfl

theorem natDigitsAux_spec : ∀ (f n : Nat), 0 < f → n < 10 ^ f →
    natDigitsAux f n ≠ [] ∧ (∀ c ∈ natDigitsAux f n, c.isDigit = true) ∧
      digitsToNatL (natDigitsAux f n) = n := by
  intro f
  induction f with
  | zero => intro n h; omega
  | succ f ih =>
    intro n _ hlt
    by_cases h10 : n < 10
    · unfold natDigitsAux
      rw [if_pos h10]
      refine ⟨by simp, ?_, ?_⟩
      · intro c hc
        rcases List.mem_singleton.mp hc with rfl
        exact digitCharOf_isDigit n h10
      · show digitsToNatL ([] ++ [digitCharOf n]) = n
        rw [digitsToNatL_append_one, digitCharOf_toNat n h10]
        simp [digitsToNatL]
    · unfold natDigitsAux
      rw [if_neg h10]
      have hf : 0 < f := by
        rcases Nat.eq_zero_or_pos f with h0 | h0
        · subst h0
          simp at hlt
          omega
        · exact h0
      have hdiv : n / 10 < 10 ^ f := by
        rw [Nat.div_lt_iff_lt_mul (by norm_num : 0 < 10)]
        calc n < 10 ^ (f + 1) := hlt
        _ = 10 ^ f * 10 := by rw [pow_succ]
      rcases ih (n / 10) hf hdiv with ⟨hne, hdig, hval⟩
      have hmod : n % 10 < 10 := Nat.mod_lt n (by norm_num)
      refine ⟨by simp, ?_, ?_⟩
      · intro c hc
        rcases List.mem_append.mp hc with hc1 | hc1
        · exact hdig c hc1
        · rcases List.mem_singleton.mp hc1 with rfl
          exact digitCharOf_isDigit _ hmod
      · rw [digitsToNatL_append_one, hval, digitCharOf_toNat _ hmod]
        omega

theorem natDigits_spec (n : Nat) :
    natDigits n ≠ [] ∧ (∀ c ∈ natDigits n, c.isDigit = true) ∧
      digitsToNatL (natDigits n) = n := by
  apply natDigitsAux_spec (n + 1) n (Nat.succ_pos n)
  calc n < 10 ^ n := Nat.lt_pow_self (by norm_num) n
  _ ≤ 10 ^ (n + 1) := Nat.pow_le_pow_right (by norm_num) (Nat.le_succ n)

theorem isDigit_not_ws (c : Char) (h : c.isDigit = true) : isJsWs c = false := by
  cases hw : isJsWs c with
  | false => rfl
  | true =>
    unfold isJsWs at hw
    rcases Bool.or_eq_true_iff.mp hw with hw1 | hw1
    · rcases Bool.or_eq_true_iff.mp hw1 with hw2 | hw2
      · rcases Bool.or_eq_true_iff.mp hw2 with hw3 | hw3
        · rw [show c = ' ' from beq_iff_eq.mp hw3] at h
          simp at h
        · rw [show c = '\t' from beq_iff_eq.mp hw3] at h
          simp at h
      · rw [show c = '\n' from beq_iff_eq.mp hw2] at h
        simp at h
    · rw [show c = '\r' from beq_iff_eq.mp hw1] at h
      simp at h

theorem dropWhile_ws_eq_self (l : List Char) (h : ∀ c ∈ l, isJsWs c = false) :
    l.dropWhile isJsWs = l := by
  cases l with
  | nil => rfl
  | cons c cs =>
    rw [List.dropWhile_cons, h c (List.mem_cons_self c cs)]
    simp

theorem trimL_eq_self (l : List Char) (h : ∀ c ∈ l, isJsWs c = false) : trimL l = l := by
  unfold trimL
  rw [dropWhile_ws_eq_self l h,
    dropWhile_ws_eq_self l.reverse (fun c hc => h c (List.mem_reverse.mp hc)),
    List.reverse_reverse]

theorem parseNumStr_digits (l : List Char) (hne : l ≠ [])
    (hd : ∀ c ∈ l, c.isDigit = true) :
    parseNumStr (String.mk l) = some ((digitsToNatL l : Int)) := by
  have htl : (String.mk l).toList = l := rfl
  have htrim : trimL (String.mk l).toList = l := by
    rw [htl]
    exact trimL_eq_self l (fun c hc => isDigit_not_ws c (hd c hc))
  obtain ⟨c, cs, rfl⟩ : ∃ c cs, l = c :: cs := by
    cases l with
    | nil => exact absurd rfl hne
    | cons c cs => exact ⟨c, cs, rfl⟩
  have hcd : c.isDigit = true := hd c (List.mem_cons_self c cs)
  have hcm : ¬ ((c :: cs).head? = some '-') := by
    intro hc
    rw [show c = '-' by injection (List.head?_cons ▸ hc)] at hcd
    simp at hcd
  have hcp : ¬ ((c :: cs).head? = some '+') := by
    intro hc
    rw [show c = '+' by injection (List.head?_cons ▸ hc)] at hcd
    simp at hcd
  unfold parseNumStr
  rw [htrim]
  rw [if_neg (by simp), if_neg hcm, if_neg hcp,
    if_pos (List.all_eq_true.mpr (fun x hx => hd x hx))]

theorem parseNumStr_intToDecimal (y : Int) (hy : 0 ≤ y) :
    parseNumStr (intToDecimal y) = some y := by
  unfold intToDecimal natToDecimal
  rw [if_neg (by omega)]
  rcases natDigits_spec y.toNat with ⟨hne, hdig, hval⟩
  rw [parseNumStr_digits _ hne hdig, hval, Int.toNat_of_nonneg hy]

theorem parseNumStr_natToDecimal (k : Nat) :
    parseNumStr (natToDecimal k) = some ((k : Int)) := by
  unfold natToDecimal
  rcases natDigits_spec k with ⟨hne, hdig, hval⟩
  rw [parseNumStr_digits _ hne hdig, hval]

theorem dash_notin_digits (l : List Char) (h : ∀ c ∈ l, c.isDigit = true) : '-' ∉ l := by
  intro hc
  have := h '-' hc
  simp at this

theorem intToDecimal_toList_digits (y : Int) (hy : 0 ≤ y) :
    ∀ c ∈ (intToDecimal y).toList, c.isDigit = true := by
  unfold intToDecimal natToDecimal
  rw [if_neg (by omega)]
  exact (natDigits_spec y.toNat).2.1

theorem natToDecimal_toList_digits (k : Nat) :
    ∀ c ∈ (natToDecimal k).toList, c.isDigit = true :=
  (natDigits_spec k).2.1

theorem snapName_toList (y m d : Int) (seq : Nat) :
    (snapName y m d seq).toList =
      List.intercalate ['-'] [(intToDecimal y).toList, (intToDecimal m).toList,
        (intToDecimal d).toList, (natToDecimal seq).toList] := by
  unfold snapName
  have hdash : ("-" : String).toList = ['-'] := rfl
  simp [String.data_append, hdash, List.intercalate, List.intersperse]

theorem jsSplitDash_snapName (y m d : Int) (seq : Nat)
    (hy : 0 ≤ y) (hm : 0 ≤ m) (hd : 0 ≤ d) :
    jsSplitDash (snapName y m d seq) =
      [intToDecimal y, intToDecimal m, intToDecimal d, natToDecimal seq] := by
  unfold jsSplitDash
  rw [snapName_toList]
  rw [List.splitOn_intercalate _ '-' ?hno (by simp)]
  · rfl
  case hno =>
    intro l hl
    rcases List.mem_cons.mp hl with rfl | hl
    · exact dash_notin_digits _ (intToDecimal_toList_digits y hy)
    rcases List.mem_cons.mp hl with rfl | hl
    · exact dash_notin_digits _ (intToDecimal_toList_digits m hm)
    rcases List.mem_cons.mp hl with rfl | hl
    · exact dash_notin_digits _ (intToDecimal_toList_digits d hd)
    rcases List.mem_cons.mp hl with rfl | hl
    · exact dash_notin_digits _ (natToDecimal_toList_digits seq)
    · simp at hl

theorem parseSnapDateMs_snapName (y m d : Int) (seq : Nat)
    (hy : 0 ≤ y) (hm : 0 ≤ m) (hd : 0 ≤ d) :
    parseSnapDateMs (snapName y m d seq) = some (mkDateMs y m d) := by
  unfold parseSnapDateMs parsePart
  rw [jsSplitDash_snapName y m d seq hy hm hd]
  simp only [List.get?]
  rw [parseNumStr_intToDecimal y hy, parseNumStr_intToDecimal m hm,
    parseNumStr_intToDecimal d hd]

theorem sameDateB_snapName (y m d : Int) (seq : Nat)
    (hy : 0 ≤ y) (hm : 0 ≤ m) (hd : 0 ≤ d) :
    sameDateB (snapName y m d seq) y m d = true := by
  unfold sameDateB parsePart
  rw [jsSplitDash_snapName y m d seq hy hm hd]
  simp only [List.get?]
  rw [parseNumStr_intToDecimal y hy, parseNumStr_intToDecimal m hm,
    parseNumStr_intToDecimal d hd]
  simp

theorem isOldBackup_iff (t : Int) (s : String) :
    isOldBackup t s = true ↔
      ∃ ms, parseSnapDateMs s = some ms ∧ ms < t - backupDaysLimit * msPerDay := by
  unfold isOldBackup
  cases hp : parseSnapDateMs s with
  | none => simp
  | some ms => simp

/-- C5: the retention sweep of `backup()` deletes exactly those
existing snapshots whose encoded instant lies strictly before today's
instant minus the 30-day window, and this happens before the new
snapshot is created, which therefore always survives; in particular,
on snapshots dated 40, 31, 29 and 1 days before today (2026-10-12),
it removes exactly the 40- and 31-day-old ones and leaves the others
plus a fresh snapshot for today, at any time of day. -/
theorem c5_backup_retention (dirs : List String) (y m d tod : Int)
    (hy : 0 ≤ y) (hm : 0 ≤ m) (hd : 0 ≤ d)
    (ht0 : 0 ≤ tod) (ht1 : tod < msPerDay) :
    (∀ s ∈ dirs, s ∈ (backup dirs y m d tod).1 ↔
      ¬ ∃ ms, parseSnapDateMs s = some ms ∧
        ms < mkDateMs y m d + tod - backupDaysLimit * msPerDay) ∧
    (backup dirs y m d tod).2 ∈ (backup dirs y m d tod).1 ∧
    (∀ tod2 : Int, 0 ≤ tod2 → tod2 < msPerDay →
      backup ["2026-9-2-1", "2026-9-11-1", "2026-9-13-1", "2026-10-11-1"]
          2026 10 12 tod2 =
        (["2026-9-13-1", "2026-10-11-1", "2026-10-12-1"], "2026-10-12-1")) := by
  have hnm_parse : parseSnapDateMs (snapName y m d (todayCount dirs y m d + 1)) =
      some (mkDateMs y m d) :=
    parseSnapDateMs_snapName y m d (todayCount dirs y m d + 1) hy hm hd
  have hnm_notold : isOldBackup (mkDateMs y m d + tod)
      (snapName y m d (todayCount dirs y m d + 1)) = false := by
    rw [Bool.eq_false_iff]
    intro hold
    rcases (isOldBackup_iff _ _).mp hold with ⟨ms, hp, hlt⟩
    rw [hnm_parse] at hp
    have hms : ms = mkDateMs y m d := by injection hp; omega
    rw [hms] at hlt
    unfold backupDaysLimit at hlt
    unfold msPerDay at hlt ht1
    omega
  refine ⟨?_, ?_, ?_⟩
  · intro s hsdirs
    constructor
    · intro hsres hold
      have holdb : isOldBackup (mkDateMs y m d + tod) s = true :=
        (isOldBackup_iff _ _).mpr hold
      have hnk : s ∉ dirs.filter
          (fun x => !(isOldBackup (mkDateMs y m d + tod) x)) := by
        intro hk
        have h2 := (List.mem_filter.mp hk).2
        rw [holdb] at h2
        simp at h2
      simp only [backup] at hsres
      by_cases hc : (dirs.filter
          (fun x => !(isOldBackup (mkDateMs y m d + tod) x))).contains
            (snapName y m d (todayCount dirs y m d + 1))
      · rw [if_pos hc] at hsres
        exact hnk hsres
      · rw [if_neg hc] at hsres
        rcases List.mem_append.mp hsres with h3 | h3
        · exact hnk h3
        · rcases List.mem_singleton.mp h3 with rfl
          rw [holdb] at hnm_notold
          simp at hnm_notold
    · intro hnold
      have hfalse : isOldBackup (mkDateMs y m d + tod) s = false := by
        cases h : isOldBackup (mkDateMs y m d + tod) s with
        | false => rfl
        | true => exact absurd ((isOldBackup_iff _ _).mp h) hnold
      have hk : s ∈ dirs.filter
          (fun x => !(isOldBackup (mkDateMs y m d + tod) x)) :=
        List.mem_filter.mpr ⟨hsdirs, by rw [hfalse]; rfl⟩
      simp only [backup]
      by_cases hc : (dirs.filter
          (fun x => !(isOldBackup (mkDateMs y m d + tod) x))).contains
            (snapName y m d (todayCount dirs y m d + 1))
      · rw [if_pos hc]
        exact hk
      · rw [if_neg hc]
        exact List.mem_append_left _ hk
  · simp only [backup]
    by_cases hc : (dirs.filter
        (fun x => !(isOldBackup (mkDateMs y m d + tod) x))).contains
          (snapName y m d (todayCount dirs y m d + 1))
    · rw [if_pos hc]
      exact List.elem_iff.mp hc
    · rw [if_neg hc]
      exact List.mem_append_right _ (List.mem_singleton.mpr rfl)
  · intro tod2 h0 h1
    have e2 : mkDateMs 2026 10 12 = 1791763200000 := by decide
    have h40 : isOldBackup (mkDateMs 2026 10 12 + tod2) "2026-9-2-1" = true := by
      unfold isOldBackup
      rw [show parseSnapDateMs "2026-9-2-1" = some 1788307200000 from by decide, e2]
      rw [decide_eq_true_eq]
      unfold backupDaysLimit msPerDay
      omega
    have h31 : isOldBackup (mkDateMs 2026 10 12 + tod2) "2026-9-11-1" = true := by
      unfold isOldBackup
      rw [show parseSnapDateMs "2026-9-11-1" = some 1789084800000 from by decide, e2]
      rw [decide_eq_true_eq]
      unfold backupDaysLimit msPerDay
      omega
    have h29 : isOldBackup (mkDateMs 2026 10 12 + tod2) "2026-9-13-1" = false := by
      unfold isOldBackup
      rw [show parseSnapDateMs "2026-9-13-1" = some 1789257600000 from by decide, e2]
      rw [decide_eq_false_iff_not]
      unfold backupDaysLimit msPerDay at *
      omega
    have h01 : isOldBackup (mkDateMs 2026 10 12 + tod2) "2026-10-11-1" = false := by
      unfold isOldBackup
      rw [show parseSnapDateMs "2026-10-11-1" = some 1791676800000 from by decide, e2]
      rw [decide_eq_false_iff_not]
      unfold backupDaysLimit msPerDay at *
      omega
    simp only [backup, List.filter, h40, h31, h29, h01, Bool.not_true, Bool.not_false]
    rw [show todayCount ["2026-9-2-1", "2026-9-11-1", "2026-9-13-1", "2026-10-11-1"]
        2026 10 12 = 0 from by decide]
    rw [show snapName 2026 10 12 (0 + 1) = "2026-10-12-1" from by decide]
    rw [show (["2026-9-13-1", "2026-10-11-1"].contains "2026-10-12-1") = false
      from by decide]
    rfl

/-- C5 witness: the retention example run at midnight of
2026-10-12. -/
theorem c5_witness :
    backup ["2026-9-2-1", "2026-9-11-1", "2026-9-13-1", "2026-10-11-1"] 2026 10 12 0 =
      (["2026-9-13-1", "2026-10-11-1", "2026-10-12-1"], "2026-10-12-1") :=
  (c5_backup_retention ["2026-9-2-1", "2026-9-11-1", "2026-9-13-1", "2026-10-11-1"]
    2026 10 12 0 (by decide) (by decide) (by decide) (by decide) (by decide)).2.2 0
    (by decide) (by decide)

theorem todayCount_append (l1 l2 : List String) (y m d : Int) :
    todayCount (l1 ++ l2) y m d = todayCount l1 y m d + todayCount l2 y m d := by
  unfold todayCount
  rw [List.filter_append, List.length_append]

/-- C6: the new snapshot is named `year-month-day-(n + 1)` where `n`
is the number of listed snapshots whose encoded date equals today's
calendar date; consequently two `backup()` runs on the same calendar
day (at any two times of day), starting from a root with no snapshot
dated that day, produce snapshots `date-1` and then `date-2`. -/
theorem c6_backup_sequence :
    (∀ (dirs : List String) (y m d tod : Int),
      (backup dirs y m d tod).2 = snapName y m d (todayCount dirs y m d + 1)) ∧
    (∀ (dirs : List String) (y m d t1 t2 : Int),
      0 ≤ y → 0 ≤ m → 0 ≤ d →
      0 ≤ t1 → t1 < msPerDay → 0 ≤ t2 → t2 < msPerDay →
      todayCount dirs y m d = 0 →
      (backup dirs y m d t1).2 = snapName y m d 1 ∧
      (backup (backup dirs y m d t1).1 y m d t2).2 = snapName y m d 2) := by
  constructor
  · intro dirs y m d tod
    rfl
  · intro dirs y m d t1 t2 hy hm hd h10 h11 h20 h21 hcnt
    have hsame : sameDateB (snapName y m d 1) y m d = true :=
      sameDateB_snapName y m d 1 hy hm hd
    have hname1 : (backup dirs y m d t1).2 = snapName y m d 1 := by
      show snapName y m d (todayCount dirs y m d + 1) = _
      rw [hcnt]
    refine ⟨hname1, ?_⟩
    have hkept_sub : (dirs.filter
        (fun x => !(isOldBackup (mkDateMs y m d + t1) x))).Sublist dirs :=
      List.filter_sublist dirs
    have hkcnt : todayCount (dirs.filter
        (fun x => !(isOldBackup (mkDateMs y m d + t1) x))) y m d = 0 := by
      unfold todayCount at hcnt ⊢
      have hsub2 := (hkept_sub.filter (fun s => sameDateB s y m d)).length_le
      omega
    have hstate : (backup dirs y m d t1).1 =
        dirs.filter (fun x => !(isOldBackup (mkDateMs y m d + t1) x)) ++
          [snapName y m d 1] := by
      simp only [backup]
      rw [show snapName y m d (todayCount dirs y m d + 1) = snapName y m d 1
        from by rw [hcnt]]
      have hnc : ¬ ((dirs.filter
          (fun x => !(isOldBackup (mkDateMs y m d + t1) x))).contains
            (snapName y m d 1) = true) := by
        intro hc
        have hmem := List.elem_iff.mp hc
        have hmem2 : snapName y m d 1 ∈ dirs := hkept_sub.subset hmem
        have hmem3 : snapName y m d 1 ∈ dirs.filter (fun s => sameDateB s y m d) :=
          List.mem_filter.mpr ⟨hmem2, hsame⟩
        unfold todayCount at hcnt
        have hlen := List.length_pos.mpr (List.ne_nil_of_mem hmem3)
        omega
      rw [if_neg hnc]
    show snapName y m d
      (todayCount (backup dirs y m d t1).1 y m d + 1) = _
    rw [hstate, todayCount_append, hkcnt]
    rw [show todayCount [snapName y m d 1] y m d = 1 from by
      unfold todayCount
      simp [List.filter, hsame]]

/-- C6 witness: two runs on 2026-10-12 starting from an empty backup
root produce `2026-10-12-1` then `2026-10-12-2`. -/
theorem c6_witness :
    (backup [] 2026 10 12 0).2 = snapName 2026 10 12 1 ∧
    (backup (backup [] 2026 10 12 0).1 2026 10 12 0).2 = snapName 2026 10 12 2 :=
  c6_backup_sequence.2 [] 2026 10 12 0 0 (by decide) (by decide) (by decide)
    (by decide) (by decide) (by decide) (by decide) rfl

end OdDb
